import Mathlib

/-!
# wav_cutter: a shallow embedding of `writer.go` and `wav_cutter.go`

The development has four layers.

* `Fl`: the values of Go's `float32` / `float64` (IEEE 754 binary32 / binary64,
  round to nearest, ties to even), as dyadic numbers with infinities and NaN.
* `WavHeader`, `parseHeader`: the 44-byte header read and the scan for the
  `data` tag at the start of `WavCopyWriter.write`.
* `trim`, `write`: the time-to-byte arithmetic and the copy, over an explicit
  file-system state and the reusable scratch buffer.
* `cutEntry`, `cutRoutine`: the per-record body of the worker loop.
-/

namespace WavCutter

/-! ## Floating point -/

/-- A binary floating-point format: `prec` significand bits, largest exponent `emax`. -/
structure FlFormat where
  prec : Nat
  emax : Int
deriving Repr

/-- Go `float32`. -/
def f32 : FlFormat := { prec := 24, emax := 127 }

/-- Go `float64`. -/
def f64 : FlFormat := { prec := 53, emax := 1023 }

/-- A floating-point value: `fin m e` is the number `m * 2 ^ e`; the sign of zero is not
tracked (no operation of the program observes it). -/
inductive Fl where
  | fin (m : Int) (e : Int)
  | inf (neg : Bool)
  | nan
deriving Repr, DecidableEq

/-- Two to the power `k` as a natural number, `1` for negative `k`. -/
def pow2 (k : Int) : Nat := 2 ^ k.toNat

/-- Quotient `a / b` rounded to the nearest integer, ties to the even one. -/
def rne (a b : Nat) : Nat :=
  let d := a / b
  let r := a % b
  if 2 * r < b then d
  else if b < 2 * r then d + 1
  else if d % 2 = 0 then d else d + 1

/-- Worker of `ilog2`: halve at most `fuel` times. -/
def ilog2Aux : Nat → Nat → Nat
  | 0, _ => 0
  | fuel + 1, n => if 2 ≤ n then ilog2Aux fuel (n / 2) + 1 else 0

/-- Position of the highest set bit, `floor (log2 n)` for positive `n`. -/
def ilog2 (n : Nat) : Nat := ilog2Aux n n

/-- Exponent `floor (log2 (a / b))` for positive `a`, `b`. -/
def floorLog2 (a b : Nat) : Int :=
  let k : Int := (ilog2 a : Int) - (ilog2 b : Int)
  if b * pow2 k ≤ a * pow2 (-k) then k else k - 1

/-- Nearest value of format `f` to the positive rational `a / b`, as significand and
exponent, before the overflow test. -/
def roundPos (f : FlFormat) (a b : Nat) : Nat × Int :=
  let emin : Int := 1 - f.emax
  let e : Int := max (floorLog2 a b) emin
  let q : Int := e - ((f.prec : Int) - 1)
  (rne (a * pow2 (-q)) (b * pow2 q), q)

/-- Sign-magnitude rounding of the rational `(-1)^neg * a / b` into format `f`; a rounded
magnitude of `2 ^ (emax + 1)` or more overflows to infinity. -/
def roundRat (f : FlFormat) (neg : Bool) (a b : Nat) : Fl :=
  if a = 0 then Fl.fin 0 0
  else
    let r := roundPos f a b
    if f.emax + 1 ≤ (ilog2 r.1 : Int) + r.2 then Fl.inf neg
    else Fl.fin (if neg then -(r.1 : Int) else (r.1 : Int)) r.2

/-- Rounding of the dyadic number `m * 2 ^ e` into format `f`. -/
def roundDyadic (f : FlFormat) (m e : Int) : Fl :=
  roundRat f (decide (m < 0)) (m.natAbs * pow2 e) (pow2 (-e))

/-- Conversion of an unsigned integer to format `f`, as in `float32(x)`. -/
def Fl.ofNat (f : FlFormat) (n : Nat) : Fl := roundDyadic f n 0

/-- Conversion between formats, as in `float32(x)` for a `float64` `x`. -/
def Fl.cast (f : FlFormat) : Fl → Fl
  | Fl.fin m e => roundDyadic f m e
  | x => x

/-- Exact sum of two dyadic numbers as significand over the smaller exponent. -/
def dyadicAdd (m1 e1 m2 e2 : Int) : Int × Int :=
  let e := min e1 e2
  (m1 * (pow2 (e1 - e) : Int) + m2 * (pow2 (e2 - e) : Int), e)

/-- Addition `x + y` in format `f`. -/
def Fl.add (f : FlFormat) : Fl → Fl → Fl
  | Fl.nan, _ => Fl.nan
  | _, Fl.nan => Fl.nan
  | Fl.inf a, Fl.inf b => if a = b then Fl.inf a else Fl.nan
  | Fl.inf a, Fl.fin _ _ => Fl.inf a
  | Fl.fin _ _, Fl.inf b => Fl.inf b
  | Fl.fin m1 e1, Fl.fin m2 e2 =>
    let s := dyadicAdd m1 e1 m2 e2
    roundDyadic f s.1 s.2

/-- Negation. -/
def Fl.neg : Fl → Fl
  | Fl.fin m e => Fl.fin (-m) e
  | Fl.inf a => Fl.inf (!a)
  | Fl.nan => Fl.nan

/-- Subtraction `x - y` in format `f`. -/
def Fl.sub (f : FlFormat) (x y : Fl) : Fl := Fl.add f x (Fl.neg y)

/-- Multiplication `x * y` in format `f`. -/
def Fl.mul (f : FlFormat) : Fl → Fl → Fl
  | Fl.nan, _ => Fl.nan
  | _, Fl.nan => Fl.nan
  | Fl.inf a, Fl.inf b => Fl.inf (a != b)
  | Fl.inf a, Fl.fin m _ => if m = 0 then Fl.nan else Fl.inf (a != decide (m < 0))
  | Fl.fin m _, Fl.inf b => if m = 0 then Fl.nan else Fl.inf (decide (m < 0) != b)
  | Fl.fin m1 e1, Fl.fin m2 e2 => roundDyadic f (m1 * m2) (e1 + e2)

/-- Division `x / y` in format `f`. -/
def Fl.div (f : FlFormat) : Fl → Fl → Fl
  | Fl.nan, _ => Fl.nan
  | _, Fl.nan => Fl.nan
  | Fl.inf _, Fl.inf _ => Fl.nan
  | Fl.inf a, Fl.fin m _ => Fl.inf (a != decide (m < 0))
  | Fl.fin _ _, Fl.inf _ => Fl.fin 0 0
  | Fl.fin m1 e1, Fl.fin m2 e2 =>
    if m2 = 0 then (if m1 = 0 then Fl.nan else Fl.inf (decide (m1 < 0)))
    else
      roundRat f (decide (m1 < 0) != decide (m2 < 0))
        (m1.natAbs * pow2 (e1 - e2)) (m2.natAbs * pow2 (e2 - e1))

/-- Absolute value, as `math.Abs`. -/
def Fl.abs : Fl → Fl
  | Fl.fin m e => Fl.fin (m.natAbs : Int) e
  | Fl.inf _ => Fl.inf false
  | Fl.nan => Fl.nan

/-- Comparison `x < y`; false when either side is NaN. -/
def Fl.lt : Fl → Fl → Bool
  | Fl.nan, _ => false
  | _, Fl.nan => false
  | Fl.inf a, Fl.inf b => a && !b
  | Fl.inf a, Fl.fin _ _ => a
  | Fl.fin _ _, Fl.inf b => !b
  | Fl.fin m1 e1, Fl.fin m2 e2 =>
    let e := min e1 e2
    decide (m1 * (pow2 (e1 - e) : Int) < m2 * (pow2 (e2 - e) : Int))

/-- Comparison `x > y`. -/
def Fl.gt (x y : Fl) : Bool := Fl.lt y x

/-- Comparison `x <= y`; false when either side is NaN. -/
def Fl.le : Fl → Fl → Bool
  | Fl.nan, _ => false
  | _, Fl.nan => false
  | Fl.inf a, Fl.inf b => a || !b
  | Fl.inf a, Fl.fin _ _ => a
  | Fl.fin _ _, Fl.inf b => !b
  | Fl.fin m1 e1, Fl.fin m2 e2 =>
    let e := min e1 e2
    decide (m1 * (pow2 (e1 - e) : Int) ≤ m2 * (pow2 (e2 - e) : Int))

/-- Conversion `uint32(x)`: the fraction is discarded; `oor` is the result Go leaves
implementation-dependent when the truncated value does not fit. -/
def Fl.toU32 (oor : Fl → Nat) (x : Fl) : Nat :=
  match x with
  | Fl.fin m e =>
    let t : Int := Int.tdiv (m * (pow2 e : Int)) (pow2 (-e) : Int)
    if 0 ≤ t ∧ t < 4294967296 then t.toNat else oor x % 4294967296
  | _ => oor x % 4294967296

/-! ## The WAVE header (`writer.go`, `WavHeader`) -/

/-- Header of a WAVE file, field for field as the Go struct; byte arrays are lists of
byte values, integers are naturals below `2 ^ 16` or `2 ^ 32`. -/
structure WavHeader where
  Riff : List Nat
  FileSize : Nat
  FileType : List Nat
  Fmt : List Nat
  FmtLen : Nat
  Format : Nat
  NChannels : Nat
  SampleRate : Nat
  ByteRate : Nat
  FrameSize : Nat
  SampleSize : Nat
  Data : List Nat
  DataSize : Nat
deriving Repr, DecidableEq

/-- The constructor `NewWavHeader`: zero fields, with "RIFF", "fmt" (three bytes copied
into the four-byte array) and "data" filled in. -/
def NewWavHeader : WavHeader :=
  { Riff := [82, 73, 70, 70]
    FileSize := 0
    FileType := [0, 0, 0, 0]
    Fmt := [102, 109, 116, 0]
    FmtLen := 0
    Format := 0
    NChannels := 0
    SampleRate := 0
    ByteRate := 0
    FrameSize := 0
    SampleSize := 0
    Data := [100, 97, 116, 97]
    DataSize := 0 }

/-- ASCII of the string "data". -/
def tagData : List Nat := [100, 97, 116, 97]

/-- ASCII of the string "WAVE". -/
def tagWave : List Nat := [87, 65, 86, 69]

/-- Little-endian value of a byte sequence (`binary.LittleEndian`). -/
def leVal : List Nat → Nat
  | [] => 0
  | b :: bs => b % 256 + 256 * leVal bs

/-- Little-endian bytes, `n` of them, of a value. -/
def leBytes : Nat → Nat → List Nat
  | 0, _ => []
  | n + 1, v => v % 256 :: leBytes n (v / 256)

/-- The `len` bytes of a file starting at offset `pos`. -/
def slice (bytes : List Nat) (pos len : Nat) : List Nat := (bytes.drop pos).take len

/-- Decoding of the 44 bytes read by `binary.Read(src_file, binary.LittleEndian, &src_header)`. -/
def decodeHeader (b : List Nat) : WavHeader :=
  { Riff := slice b 0 4
    FileSize := leVal (slice b 4 4)
    FileType := slice b 8 4
    Fmt := slice b 12 4
    FmtLen := leVal (slice b 16 4)
    Format := leVal (slice b 20 2)
    NChannels := leVal (slice b 22 2)
    SampleRate := leVal (slice b 24 4)
    ByteRate := leVal (slice b 28 4)
    FrameSize := leVal (slice b 32 2)
    SampleSize := leVal (slice b 34 2)
    Data := slice b 36 4
    DataSize := leVal (slice b 40 4) }

/-- Encoding written by `binary.Write(out_file, binary.LittleEndian, out_header)`. -/
def encodeHeader (h : WavHeader) : List Nat :=
  h.Riff ++ leBytes 4 h.FileSize ++ h.FileType ++ h.Fmt ++ leBytes 4 h.FmtLen
    ++ leBytes 2 h.Format ++ leBytes 2 h.NChannels ++ leBytes 4 h.SampleRate
    ++ leBytes 4 h.ByteRate ++ leBytes 2 h.FrameSize ++ leBytes 2 h.SampleSize
    ++ h.Data ++ leBytes 4 h.DataSize

/-- Errors returned by `WavCopyWriter.write`. -/
inductive WriteError where
  | io
  | fmtError
  | endAfterSource
  | startAfterEnd
  | tooBig
deriving Repr, DecidableEq

deriving instance DecidableEq for Except

/-- The loop `for string(src_header.Data[:]) != "data"` of `write`: each round seeks three
bytes back from the read position `pos` and reads four bytes into `Data`, so the window
moves one byte forward. Returns the read position after the matching window. A read
that reaches the end of the file fails. `fuel` bounds the rounds. -/
def scanData (bytes : List Nat) : Nat → Nat → Except WriteError Nat
  | 0, _ => Except.error WriteError.io
  | fuel + 1, pos =>
    if bytes.length < pos - 3 + 4 then Except.error WriteError.io
    else if slice bytes (pos - 3) 4 = tagData then Except.ok (pos - 3 + 4)
    else scanData bytes fuel (pos - 3 + 4)

/-- The header parse at the start of `write`: the 44-byte read, then, when the tag at
bytes 36..39 is not "data", the scan and the read of the four size bytes after the tag.
Returns the header and the read position. -/
def parseHeader (bytes : List Nat) : Except WriteError (WavHeader × Nat) :=
  if bytes.length < 44 then Except.error WriteError.io
  else
    let h := decodeHeader bytes
    if h.Data ≠ tagData then
      match scanData bytes bytes.length 44 with
      | Except.error e => Except.error e
      | Except.ok pos =>
        if bytes.length < pos + 4 then Except.error WriteError.io
        else Except.ok ({ h with Data := tagData, DataSize := leVal (slice bytes pos 4) }, pos + 4)
    else Except.ok (h, 44)

/-! ## The trimming arithmetic (`write`, lines 106-117) -/

/-- Result of the arithmetic of one cut. -/
structure Trim where
  front : Nat
  cutEnd : Nat
  cut : Nat
  out : WavHeader
deriving Repr, DecidableEq

/-- Source duration `float32(DataSize) / float32(ByteRate)`. -/
def srcDuration (h : WavHeader) : Fl :=
  Fl.div f32 (Fl.ofNat f32 h.DataSize) (Fl.ofNat f32 h.ByteRate)

/-- Value of `bytes_cut_front`. -/
def bytesCutFront (oor : Fl → Nat) (h : WavHeader) (start : Fl) : Nat :=
  Fl.toU32 oor (Fl.mul f32 (Fl.ofNat f32 h.ByteRate) start)

/-- Value of `bytes_cut_end`. -/
def bytesCutEnd (oor : Fl → Nat) (h : WavHeader) (end_ : Fl) : Nat :=
  Fl.toU32 oor (Fl.mul f32 (Fl.ofNat f32 h.ByteRate) (Fl.sub f32 (srcDuration h) end_))

/-- The two range checks and the output header; `uint32` sums and differences wrap. -/
def trim (oor : Fl → Nat) (h : WavHeader) (start end_ : Fl) : Except WriteError Trim :=
  if Fl.gt end_ (srcDuration h) then Except.error WriteError.endAfterSource
  else
    let front := bytesCutFront oor h start
    let cutEnd := bytesCutEnd oor h end_
    let cut := (front + cutEnd) % 4294967296
    if h.DataSize ≤ cut then Except.error WriteError.startAfterEnd
    else
      Except.ok
        { front := front
          cutEnd := cutEnd
          cut := cut
          out := { h with
            DataSize := (h.DataSize + 4294967296 - cut) % 4294967296
            FileSize := (h.FileSize + 4294967296 - cut) % 4294967296 } }

/-! ## Files and the copy (`WavCopyWriter.write`) -/

/-- What a path names. -/
inductive Node where
  | file (bytes : List Nat)
  | dir
deriving Repr, DecidableEq

/-- File-system state: what each path names, if anything. -/
abbrev FS := String → Option Node

/-- State after a path is made to name `n`. -/
def FS.set (fs : FS) (p : String) (n : Node) : FS := fun q => if q = p then some n else fs q

/-- State after `os.Remove(p)`. -/
def FS.remove (fs : FS) (p : String) : FS := fun q => if q = p then none else fs q

/-- Contents of the regular file at a path, empty when there is none. -/
def FS.contents (fs : FS) (p : String) : List Nat :=
  match fs p with
  | some (Node.file b) => b
  | _ => []

/-- The scratch buffer `[5000000]byte`, as a map from index to byte. -/
abbrev Buffer := Nat → Nat

/-- Buffer after `src_file.Read(buffer[:n])` delivered `data`: only the first
`data.length` cells change. -/
def readInto (buffer : Buffer) (data : List Nat) : Buffer :=
  fun i => if i < data.length then data.getD i 0 else buffer i

/-- The bytes `buffer[:n]`. -/
def bufferPrefix (buffer : Buffer) (n : Nat) : List Nat := (List.range n).map buffer

/-- The struct `WavCopyWriter`. -/
structure WavCopyWriter where
  source : String
  dest : String
  start : Fl
  end_ : Fl
  buffer : Buffer

/-- Outcome of one call of `write`: the returned error, the file system and the buffer. -/
structure WriteResult where
  err : Option WriteError
  fs : FS
  buffer : Buffer

/-- The method `WavCopyWriter.write`. `os.Open` fails on a missing path and the first read
fails on a directory; `os.Create` fails on a directory, which the code notices at
`binary.Write`; otherwise it truncates the destination. One `Read` delivers the bytes
present from the seek position, at most `DataSize` of them, and fails only when there
are none; `Write` then writes `buffer[:DataSize]`. -/
def write (oor : Fl → Nat) (w : WavCopyWriter) (fs : FS) : WriteResult :=
  match fs w.source with
  | none => ⟨some WriteError.io, fs, w.buffer⟩
  | some Node.dir => ⟨some WriteError.io, fs, w.buffer⟩
  | some (Node.file bytes) =>
    match parseHeader bytes with
    | Except.error e => ⟨some e, fs, w.buffer⟩
    | Except.ok (h, pos) =>
      if h.FileType ≠ tagWave then ⟨some WriteError.fmtError, fs, w.buffer⟩
      else
        match trim oor h w.start w.end_ with
        | Except.error e => ⟨some e, fs, w.buffer⟩
        | Except.ok t =>
          match fs w.dest with
          | some Node.dir => ⟨some WriteError.io, fs, w.buffer⟩
          | _ =>
            let fs1 := fs.set w.dest (Node.file (encodeHeader t.out))
            if 5000000 < t.out.DataSize then ⟨some WriteError.tooBig, fs1, w.buffer⟩
            else
              let data := slice (fs1.contents w.source) (pos + t.front) t.out.DataSize
              if data.length = 0 then ⟨some WriteError.io, fs1, w.buffer⟩
              else
                let buf := readInto w.buffer data
                ⟨none,
                  fs1.set w.dest
                    (Node.file (encodeHeader t.out ++ bufferPrefix buf t.out.DataSize)),
                  buf⟩

/-! ## The worker (`wav_cutter.go`, `cutRoutine`) -/

/-- The command-line flags read by `cutRoutine`. -/
structure Config where
  fromDir : String
  toDir : String
  maxRatioError : Fl
  maxError : Fl
  offsetEnd : Fl
  offsetStart : Fl
  verbose : Bool
  splitInHalf : Bool
  deleteSourceError : Fl
  deleteSourceRatioError : Fl
  srcFileIndex : Int
  startSIndex : Int
  endSIndex : Int
  outFileIndex : Int
  diffErrorIndex : Int
  ratioErrorIndex : Int

/-- Library and platform behaviour the worker depends on: `strconv.ParseFloat(s, 32)`,
`filepath.Join`, and the out-of-range result of `uint32(x)`. -/
structure Env where
  parseFloat : String → Option Fl
  join : String → String → String
  oor : Fl → Nat

/-- Indexing `entry[i]`; `none` stands for the run-time panic on a bad index. -/
def entryAt (entry : List String) (i : Int) : Option String :=
  if i < 0 then none else entry.get? i.toNat

/-- How a record leaves a stage of the loop body. -/
inductive Gate where
  | panicked
  | skipped
  | pass (v : Fl)
deriving Repr, DecidableEq

/-- The `continue` after a failed parse, whose message prints `entry[*srcFileIndex]`. -/
def parseFail (cfg : Config) (entry : List String) : Gate :=
  match entryAt entry cfg.srcFileIndex with
  | none => Gate.panicked
  | some _ => Gate.skipped

/-- Parse of a required numeric field (`start_s`, `end_s`). -/
def parseField (env : Env) (cfg : Config) (entry : List String) (i : Int) : Gate :=
  match entryAt entry i with
  | none => Gate.panicked
  | some s =>
    match env.parseFloat s with
    | none => parseFail cfg entry
    | some v => Gate.pass v

/-- Value of `hasDiffError`. -/
def hasDiffError (cfg : Config) (entry : List String) : Bool :=
  decide (cfg.diffErrorIndex < (entry.length : Int))

/-- Value of `hasRatioError`. -/
def hasRatioError (cfg : Config) (entry : List String) : Bool :=
  decide (cfg.ratioErrorIndex < (entry.length : Int))

/-- The block `if hasDiffError`: passes the value of `diffError`. -/
def diffGate (env : Env) (cfg : Config) (entry : List String) : Gate :=
  if hasDiffError cfg entry then
    match entryAt entry cfg.diffErrorIndex with
    | none => Gate.panicked
    | some s =>
      match env.parseFloat s with
      | none => parseFail cfg entry
      | some d =>
        if Fl.gt cfg.maxError (Fl.fin 0 0) && Fl.gt d cfg.maxError then Gate.skipped
        else Gate.pass d
  else Gate.pass (Fl.fin 0 0)

/-- The block `if hasRatioError`: passes the value of `ratioError`. -/
def ratioGate (env : Env) (cfg : Config) (entry : List String) : Gate :=
  if hasRatioError cfg entry then
    match entryAt entry cfg.ratioErrorIndex with
    | none => Gate.panicked
    | some s =>
      match env.parseFloat s with
      | none => parseFail cfg entry
      | some ratio =>
        let ratioError := Fl.abs (Fl.sub f64 (Fl.fin 1 0) ratio)
        if Fl.gt cfg.maxRatioError (Fl.fin 0 0) && Fl.gt ratioError cfg.maxRatioError then
          Gate.skipped
        else Gate.pass ratioError
  else Gate.pass (Fl.fin 0 0)

/-- One call of `cutWriter.write()` as the worker issued it, with its result. -/
structure CutCall where
  source : String
  dest : String
  start : Fl
  end_ : Fl
  err : Option WriteError
deriving Repr, DecidableEq

/-- How the loop body ended for a record. -/
inductive Outcome where
  | panicked
  | skipped
  | cut
deriving Repr, DecidableEq

/-- Effect of the loop body on one record. -/
structure EntryResult where
  outcome : Outcome
  cuts : List CutCall
  removed : Bool
  fs : FS
  buffer : Buffer

/-- Lines 142-182 of `cutRoutine`: the offsets, the one or two cuts, the deletion. -/
def cutAndDelete (env : Env) (cfg : Config) (entry : List String) (start_s end_s : Fl)
    (diffError ratioError : Fl) (fs : FS) (buffer : Buffer) : EntryResult :=
  let start_s := Fl.add f64 start_s cfg.offsetStart
  let end_s := Fl.add f64 end_s cfg.offsetEnd
  match entryAt entry cfg.srcFileIndex, entryAt entry cfg.outFileIndex with
  | some src, some out =>
    let source := env.join cfg.fromDir src
    let done (cuts : List CutCall) (r : WriteResult) : EntryResult :=
      if r.err = none ∧ hasDiffError cfg entry ∧ hasRatioError cfg entry
          ∧ Fl.le diffError cfg.deleteSourceError
          ∧ Fl.le ratioError cfg.deleteSourceRatioError then
        ⟨Outcome.cut, cuts, true, r.fs.remove source, r.buffer⟩
      else ⟨Outcome.cut, cuts, false, r.fs, r.buffer⟩
    if cfg.splitInHalf then
      let dur_s := Fl.sub f64 end_s start_s
      let endA := Fl.add f64 start_s (Fl.div f64 dur_s (Fl.fin 2 0))
      let wa : WavCopyWriter :=
        ⟨source, env.join cfg.toDir ("a_" ++ out), Fl.cast f32 start_s, Fl.cast f32 endA, buffer⟩
      let ra := write env.oor wa fs
      let wb : WavCopyWriter :=
        ⟨source, env.join cfg.toDir ("b_" ++ out), Fl.cast f32 endA, Fl.cast f32 end_s,
          ra.buffer⟩
      let rb := write env.oor wb ra.fs
      done [⟨wa.source, wa.dest, wa.start, wa.end_, ra.err⟩,
        ⟨wb.source, wb.dest, wb.start, wb.end_, rb.err⟩] rb
    else
      let w : WavCopyWriter :=
        ⟨source, env.join cfg.toDir out, Fl.cast f32 (Fl.add f64 start_s cfg.offsetStart),
          Fl.cast f32 (Fl.add f64 end_s cfg.offsetEnd), buffer⟩
      let r := write env.oor w fs
      done [⟨w.source, w.dest, w.start, w.end_, r.err⟩] r
  | _, _ => ⟨Outcome.panicked, [], false, fs, buffer⟩

/-- The body of the `for` loop of `cutRoutine` for one record received from the channel. -/
def cutEntry (env : Env) (cfg : Config) (entry : List String) (fs : FS) (buffer : Buffer) :
    EntryResult :=
  match parseField env cfg entry cfg.startSIndex with
  | Gate.panicked => ⟨Outcome.panicked, [], false, fs, buffer⟩
  | Gate.skipped => ⟨Outcome.skipped, [], false, fs, buffer⟩
  | Gate.pass start_s =>
    match parseField env cfg entry cfg.endSIndex with
    | Gate.panicked => ⟨Outcome.panicked, [], false, fs, buffer⟩
    | Gate.skipped => ⟨Outcome.skipped, [], false, fs, buffer⟩
    | Gate.pass end_s =>
      match diffGate env cfg entry with
      | Gate.panicked => ⟨Outcome.panicked, [], false, fs, buffer⟩
      | Gate.skipped => ⟨Outcome.skipped, [], false, fs, buffer⟩
      | Gate.pass diffError =>
        match ratioGate env cfg entry with
        | Gate.panicked => ⟨Outcome.panicked, [], false, fs, buffer⟩
        | Gate.skipped => ⟨Outcome.skipped, [], false, fs, buffer⟩
        | Gate.pass ratioError =>
          cutAndDelete env cfg entry start_s end_s diffError ratioError fs buffer

/-- The worker `cutRoutine` on the records it receives, in order, with its own writer:
the buffer is carried from record to record; a panic ends the run. -/
def cutRoutine (env : Env) (cfg : Config) : List (List String) → FS → Buffer → Option (FS × Buffer)
  | [], fs, buffer => some (fs, buffer)
  | entry :: rest, fs, buffer =>
    let r := cutEntry env cfg entry fs buffer
    if r.outcome = Outcome.panicked then none else cutRoutine env cfg rest r.fs r.buffer

/-! ## Fixtures -/

/-- Canonical 44-byte PCM header for the given channel count, sample rate, bits per sample
and data size. -/
def pcmHeader (channels sampleRate bits dataSize : Nat) : WavHeader :=
  { Riff := [82, 73, 70, 70]
    FileSize := dataSize + 36
    FileType := tagWave
    Fmt := [102, 109, 116, 32]
    FmtLen := 16
    Format := 1
    NChannels := channels
    SampleRate := sampleRate
    ByteRate := sampleRate * channels * bits / 8
    FrameSize := channels * bits / 8
    SampleSize := bits
    Data := tagData
    DataSize := dataSize }

/-- Four seconds of 8-bit mono at 4 Hz: a header and 16 data bytes `1 .. 16`. -/
def tinyWav : List Nat :=
  encodeHeader (pcmHeader 1 4 8 16) ++ [1, 2, 3, 4, 5, 6, 7, 8, 9, 10, 11, 12, 13, 14, 15, 16]

/-- The header of `tinyWav` followed by four data bytes only: the file was cut short. -/
def shortWav : List Nat := encodeHeader (pcmHeader 1 4 8 16) ++ [101, 102, 103, 104]

/-- Out-of-range conversions yield zero in the fixtures; none of them reaches one. -/
def oorZero : Fl → Nat := fun _ => 0

/-- A file system holding `tinyWav` at `in/a.wav` and `shortWav` at `in/b.wav`. -/
def fsTiny : FS := fun p =>
  if p = "in/a.wav" then some (Node.file tinyWav)
  else if p = "in/b.wav" then some (Node.file shortWav)
  else none

/-- As `fsTiny`, with a directory at `out/a_x.wav`. -/
def fsBlocked : FS := fun p => if p = "out/a_x.wav" then some Node.dir else fsTiny p

/-- Values of `strconv.ParseFloat(s, 32)` on the strings the fixtures use. -/
def parseTable (s : String) : Option Fl :=
  if s = "0" then some (Fl.fin 0 0)
  else if s = "1" then some (Fl.ofNat f32 1)
  else if s = "2" then some (Fl.ofNat f32 2)
  else if s = "3" then some (Fl.ofNat f32 3)
  else if s = "4" then some (Fl.ofNat f32 4)
  else if s = "0.4" then some (roundRat f32 false 4 10)
  else if s = "0.6" then some (roundRat f32 false 6 10)
  else none

/-- Environment of the fixtures: `filepath.Join` on two plain names puts a slash between. -/
def envTiny : Env := { parseFloat := parseTable, join := fun d n => d ++ "/" ++ n, oor := oorZero }

/-- Flags of a run from `in` to `out` with every threshold at its default. -/
def cfgDefault : Config :=
  { fromDir := "in"
    toDir := "out"
    maxRatioError := Fl.fin (-1) 0
    maxError := Fl.fin (-1) 0
    offsetEnd := Fl.fin 0 0
    offsetStart := Fl.fin 0 0
    verbose := false
    splitInHalf := false
    deleteSourceError := Fl.fin (-1) 0
    deleteSourceRatioError := Fl.fin (-1) 0
    srcFileIndex := 0
    startSIndex := 1
    endSIndex := 2
    outFileIndex := 3
    diffErrorIndex := 4
    ratioErrorIndex := 5 }

/-- Equality of values, as Go's `==`. -/
def Fl.eq (x y : Fl) : Bool := Fl.le x y && Fl.le y x

/-- A buffer of zeros: the fresh `WavCopyWriter{}`. -/
def zeroBuffer : Buffer := fun _ => 0

/-! ## RIFF chunk layout -/

/-- A RIFF chunk: a four-byte tag and a payload. -/
structure Chunk where
  tag : List Nat
  payload : List Nat
deriving Repr, DecidableEq

/-- Bytes of a chunk: tag, little-endian payload length, payload, and a pad byte after a
payload of odd length. -/
def Chunk.encode (c : Chunk) : List Nat :=
  c.tag ++ leBytes 4 c.payload.length ++ c.payload
    ++ (if c.payload.length % 2 = 1 then [0] else [])

/-- Bytes of a sequence of chunks. -/
def encodeChunks : List Chunk → List Nat
  | [] => []
  | c :: cs => c.encode ++ encodeChunks cs

/-- A WAVE file: `head` is the 12-byte RIFF header followed by the `fmt ` chunk with its
16-byte body (36 bytes), then the extra chunks, then the data chunk with its declared
size and the samples. -/
def riffFile (head : List Nat) (extras : List Chunk) (dataSize : Nat) (pcm : List Nat) :
    List Nat :=
  head ++ (encodeChunks extras ++ (tagData ++ (leBytes 4 dataSize ++ pcm)))

/-- A `LIST` chunk holding an `INFO` list with the comment "metadata". -/
def commentChunk : Chunk :=
  { tag := [76, 73, 83, 84]
    payload := [73, 78, 70, 79, 73, 67, 77, 84, 8, 0, 0, 0, 109, 101, 116, 97, 100, 97, 116, 97] }

/-- A `LIST` chunk holding an `INFO` list with the comment "loudness". -/
def plainChunk : Chunk :=
  { tag := [76, 73, 83, 84]
    payload := [73, 78, 70, 79, 73, 67, 77, 84, 8, 0, 0, 0, 108, 111, 117, 100, 110, 101, 115, 115] }

/-- The first 36 bytes of `tinyWav`. -/
def tinyHead : List Nat := (encodeHeader (pcmHeader 1 4 8 16)).take 36

/-- The samples of `tinyWav`. -/
def tinyPcm : List Nat := [1, 2, 3, 4, 5, 6, 7, 8, 9, 10, 11, 12, 13, 14, 15, 16]

/-- Header of 16-bit stereo audio at 44100 Hz (176400 bytes per second, 4 bytes per
frame) with the given data size. -/
def cdHeader (dataSize : Nat) : WavHeader := pcmHeader 2 44100 16 dataSize

/-- A complete file of such audio: the header and `dataSize` bytes of silence. -/
def cdWav (dataSize : Nat) : List Nat :=
  encodeHeader (cdHeader dataSize) ++ List.replicate dataSize 0

/-- A file system holding `cdWav dataSize` at `in/c.wav`. -/
def fsCd (dataSize : Nat) : FS := fun p =>
  if p = "in/c.wav" then some (Node.file (cdWav dataSize)) else none

/-- A cut of `in/c.wav` to `dest` with a fresh buffer. -/
def cdCut (dest : String) (start end_ : Fl) : WavCopyWriter :=
  ⟨"in/c.wav", dest, start, end_, zeroBuffer⟩

/-- The midpoint `start_s + (end_s - start_s) / 2` of split mode, in `float64`. -/
def splitMid (start_s end_s : Fl) : Fl :=
  Fl.add f64 start_s (Fl.div f64 (Fl.sub f64 end_s start_s) (Fl.fin 2 0))

/-- Start of the split-mode example: second 2. -/
def splitS : Fl := Fl.ofNat f32 2

/-- End of the split-mode example: the `float32` nearest to 5.2. -/
def splitE : Fl := roundRat f32 false 52 10

/-- Midpoint of the split-mode example as the worker computes it. -/
def splitM : Fl := splitMid splitS splitE

/-- Flags with both offsets set to one second. -/
def cfgOffsets : Config :=
  { cfgDefault with offsetStart := Fl.ofNat f64 1, offsetEnd := Fl.ofNat f64 1 }

/-- Flags of split mode with both deletion thresholds set to 1. -/
def cfgSplitDelete : Config :=
  { cfgDefault with
    splitInHalf := true
    deleteSourceError := Fl.ofNat f64 1
    deleteSourceRatioError := Fl.ofNat f64 1 }

/-- Flags with `max-error` 0.5. -/
def cfgGate : Config := { cfgDefault with maxError := Fl.fin 1 (-1) }

/-- The header of `tinyWav` with its file-size field left at zero. -/
def zeroSizeHeader : WavHeader := { pcmHeader 1 4 8 16 with FileSize := 0 }

/-- A file as `tinyWav` whose file-size field was left at zero. -/
def zeroSizeWav : List Nat := encodeHeader zeroSizeHeader ++ tinyPcm

/-- A file system holding `zeroSizeWav` at `in/z.wav`. -/
def fsZero : FS := fun p => if p = "in/z.wav" then some (Node.file zeroSizeWav) else none

/-- The rational number a finite value stands for (zero for infinities and NaN). -/
def Fl.toRat : Fl → ℚ
  | Fl.fin m e => (m : ℚ) * (2 : ℚ) ^ e
  | _ => 0

/-- Whether a value is a finite number that is not negative, or plus infinity. -/
def Fl.isNonneg : Fl → Bool
  | Fl.fin m _ => decide (0 ≤ m)
  | Fl.inf neg => !neg
  | Fl.nan => false

/-- Header of 16,500,000 data bytes of 8-bit mono at 48000 Hz: one byte per frame. -/
def monoHeader : WavHeader := pcmHeader 1 48000 8 16500000

/-- Start of the second split-mode example: second 63. -/
def monoS : Fl := Fl.ofNat f32 63

/-- End of the second split-mode example: the `float32` nearest to 76.9. -/
def monoE : Fl := roundRat f32 false 769 10

end WavCutter
namespace WavCutter

/-! ## Header parse: basic facts -/

theorem leVal_lt (l : List Nat) : leVal l < 256 ^ l.length := by
  induction l with
  | nil => simp [leVal]
  | cons b bs ih =>
    simp only [leVal, List.length_cons, pow_succ]
    have := Nat.mod_lt b (show 256 > 0 by norm_num)
    nlinarith

theorem leVal_slice4_lt (b : List Nat) (p : Nat) : leVal (slice b p 4) < 4294967296 := by
  have h := leVal_lt (slice b p 4)
  have hl : (slice b p 4).length ≤ 4 := by simp [slice]
  calc leVal (slice b p 4) < 256 ^ (slice b p 4).length := h
    _ ≤ 256 ^ 4 := Nat.pow_le_pow_right (by norm_num) hl
    _ = 4294967296 := by norm_num

theorem scanData_bounds (bytes : List Nat) :
    ∀ (fuel p q : Nat), 3 ≤ p → scanData bytes fuel p = Except.ok q → p < q ∧ q ≤ bytes.length := by
  intro fuel
  induction fuel with
  | zero => intro p q _ h; simp [scanData] at h
  | succ n ih =>
    intro p q hp h
    unfold scanData at h
    split at h
    · cases h
    · rename_i hlen
      split at h
      · injection h with h
        omega
      · have := ih (p - 3 + 4) q (by omega) h
        omega

theorem parseHeader_bounds {bytes : List Nat} {h : WavHeader} {pos : Nat}
    (hp : parseHeader bytes = Except.ok (h, pos)) :
    h.DataSize < 4294967296 ∧ h.FileSize < 4294967296 ∧ h.Data = tagData ∧ 44 ≤ pos
      ∧ pos ≤ bytes.length := by
  unfold parseHeader at hp
  split at hp
  · cases hp
  · rename_i hlen
    simp only [] at hp
    split at hp
    · split at hp
      · cases hp
      · rename_i p hs
        split at hp
        · cases hp
        · rename_i hlen2
          injection hp with hp
          injection hp with h1 h2
          subst h1; subst h2
          have := scanData_bounds bytes _ _ _ (by norm_num) hs
          exact ⟨leVal_slice4_lt _ _, leVal_slice4_lt _ _, rfl, by omega, by omega⟩
    · rename_i hd
      injection hp with hp
      injection hp with h1 h2
      subst h1; subst h2
      refine ⟨leVal_slice4_lt _ _, leVal_slice4_lt _ _, ?_, le_refl _, by omega⟩
      simp at hd; exact hd

/-! ## The trimming arithmetic: what passing the checks gives -/

theorem trim_ok_iff (oor : Fl → Nat) (h : WavHeader) (start end_ : Fl) (t : Trim) :
    trim oor h start end_ = Except.ok t ↔
      Fl.gt end_ (srcDuration h) = false
      ∧ (bytesCutFront oor h start + bytesCutEnd oor h end_) % 4294967296 < h.DataSize
      ∧ t = { front := bytesCutFront oor h start
              cutEnd := bytesCutEnd oor h end_
              cut := (bytesCutFront oor h start + bytesCutEnd oor h end_) % 4294967296
              out := { h with
                DataSize := (h.DataSize + 4294967296
                  - (bytesCutFront oor h start + bytesCutEnd oor h end_) % 4294967296)
                    % 4294967296
                FileSize := (h.FileSize + 4294967296
                  - (bytesCutFront oor h start + bytesCutEnd oor h end_) % 4294967296)
                    % 4294967296 } } := by
  unfold trim
  by_cases hg : Fl.gt end_ (srcDuration h) = true
  · simp [hg]
  · simp only [hg, Bool.false_eq_true, if_false]
    by_cases hc : h.DataSize ≤ (bytesCutFront oor h start + bytesCutEnd oor h end_) % 4294967296
    · simp only [hc, if_true]
      constructor
      · intro h'; cases h'
      · intro h'; omega
    · simp only [hc, if_false]
      constructor
      · intro h'
        injection h' with h'
        exact ⟨trivial, by omega, h'.symm⟩
      · intro h'
        rw [h'.2.2]

end WavCutter
namespace WavCutter

/-! ## `write` after a successful parse -/

/-- What `write` does once the source opened and its header parsed as a WAVE header. -/
theorem write_of_parse (oor : Fl → Nat) (w : WavCopyWriter) (fs : FS) (bytes : List Nat)
    (h : WavHeader) (pos : Nat) (hsrc : fs w.source = some (Node.file bytes))
    (hparse : parseHeader bytes = Except.ok (h, pos)) (hwave : h.FileType = tagWave) :
    write oor w fs =
      match trim oor h w.start w.end_ with
      | Except.error e => ⟨some e, fs, w.buffer⟩
      | Except.ok t =>
        match fs w.dest with
        | some Node.dir => ⟨some WriteError.io, fs, w.buffer⟩
        | _ =>
          let fs1 := fs.set w.dest (Node.file (encodeHeader t.out))
          if 5000000 < t.out.DataSize then ⟨some WriteError.tooBig, fs1, w.buffer⟩
          else
            let data := slice (fs1.contents w.source) (pos + t.front) t.out.DataSize
            if data.length = 0 then ⟨some WriteError.io, fs1, w.buffer⟩
            else
              let buf := readInto w.buffer data
              ⟨none,
                fs1.set w.dest
                  (Node.file (encodeHeader t.out ++ bufferPrefix buf t.out.DataSize)),
                buf⟩ := by
  unfold write
  simp only [hsrc, hparse, hwave, ne_eq, not_true_eq_false, if_false]

/-- C8: a window whose end is later than the source duration computed by the code
(`float32(DataSize) / float32(ByteRate)`) makes `write` return the range error of line 108
and leaves the file system as it was: no destination is created, truncated or written. -/
theorem write_end_after_source (oor : Fl → Nat) (w : WavCopyWriter) (fs : FS)
    (bytes : List Nat) (h : WavHeader) (pos : Nat)
    (hsrc : fs w.source = some (Node.file bytes))
    (hparse : parseHeader bytes = Except.ok (h, pos)) (hwave : h.FileType = tagWave)
    (hend : Fl.gt w.end_ (srcDuration h) = true) :
    (write oor w fs).err = some WriteError.endAfterSource ∧ (write oor w fs).fs = fs
      ∧ (write oor w fs).buffer = w.buffer := by
  rw [write_of_parse oor w fs bytes h pos hsrc hparse hwave]
  simp [trim, hend]

end WavCutter
namespace WavCutter

theorem FS.set_same (fs : FS) (p : String) (n : Node) : (fs.set p n) p = some n := by
  simp [FS.set]

theorem FS.contents_set_same (fs : FS) (p : String) (b : List Nat) :
    (fs.set p (Node.file b)).contents p = b := by
  simp [FS.contents, FS.set]

/-- What `write` leaves at the destination once both range checks passed and the
destination could be created: the output header, followed by the copied bytes when the
call succeeded. -/
theorem write_dest_of_trim (oor : Fl → Nat) (w : WavCopyWriter) (fs : FS) (bytes : List Nat)
    (h : WavHeader) (pos : Nat) (t : Trim) (hsrc : fs w.source = some (Node.file bytes))
    (hparse : parseHeader bytes = Except.ok (h, pos)) (hwave : h.FileType = tagWave)
    (htrim : trim oor h w.start w.end_ = Except.ok t) (hdest : fs w.dest ≠ some Node.dir) :
    ((write oor w fs).err ≠ none ∧ (write oor w fs).fs.contents w.dest = encodeHeader t.out)
    ∨ ((write oor w fs).err = none ∧ t.out.DataSize ≤ 5000000
        ∧ (write oor w fs).fs.contents w.dest
          = encodeHeader t.out ++ bufferPrefix (write oor w fs).buffer t.out.DataSize) := by
  rw [write_of_parse oor w fs bytes h pos hsrc hparse hwave, htrim]
  simp only []
  by_cases hbig : 5000000 < t.out.DataSize
  · left
    simp only [hbig, if_true]
    exact ⟨by simp, FS.contents_set_same _ _ _⟩
  · simp only [hbig, if_false]
    by_cases hz : (slice ((fs.set w.dest (Node.file (encodeHeader t.out))).contents w.source)
        (pos + t.front) t.out.DataSize).length = 0
    · left
      simp only [hz, if_true]
      exact ⟨by simp, FS.contents_set_same _ _ _⟩
    · right
      simp only [hz, if_false]
      exact ⟨trivial, by omega, FS.contents_set_same _ _ _⟩

/-- The output header in the `uint32` arithmetic of the code: both size fields drop by the
one value of `cut_bytes`, the sum and the difference on `FileSize` taken modulo `2 ^ 32`;
every other field is copied. -/
theorem trim_out_fields (oor : Fl → Nat) (w : WavCopyWriter) (fs : FS) (bytes : List Nat)
    (h : WavHeader) (pos : Nat) (t : Trim) (hsrc : fs w.source = some (Node.file bytes))
    (hparse : parseHeader bytes = Except.ok (h, pos)) (hwave : h.FileType = tagWave)
    (htrim : trim oor h w.start w.end_ = Except.ok t) :
    t.cut = (bytesCutFront oor h w.start + bytesCutEnd oor h w.end_) % 4294967296
    ∧ t.cut < h.DataSize
    ∧ t.out.DataSize = h.DataSize - t.cut
    ∧ t.out.FileSize = (h.FileSize + 4294967296 - t.cut) % 4294967296
    ∧ (t.cut ≤ h.FileSize → t.out.FileSize = h.FileSize - t.cut
        ∧ t.out.FileSize + h.DataSize = h.FileSize + t.out.DataSize)
    ∧ (t.out.FileSize + h.DataSize) % 4294967296 = (h.FileSize + t.out.DataSize) % 4294967296
    ∧ (t.out.Riff = h.Riff ∧ t.out.FileType = h.FileType ∧ t.out.Fmt = h.Fmt
        ∧ t.out.FmtLen = h.FmtLen ∧ t.out.Format = h.Format ∧ t.out.NChannels = h.NChannels
        ∧ t.out.SampleRate = h.SampleRate ∧ t.out.ByteRate = h.ByteRate
        ∧ t.out.FrameSize = h.FrameSize ∧ t.out.SampleSize = h.SampleSize
        ∧ t.out.Data = h.Data)
    ∧ (fs w.dest ≠ some Node.dir →
        encodeHeader t.out <+: (write oor w fs).fs.contents w.dest) := by
  obtain ⟨hD, hF, -, -, -⟩ := parseHeader_bounds hparse
  have ht := (trim_ok_iff oor h w.start w.end_ t).mp htrim
  obtain ⟨-, hlt, heq⟩ := ht
  have hdest : fs w.dest ≠ some Node.dir →
      encodeHeader t.out <+: (write oor w fs).fs.contents w.dest := by
    intro hd
    rcases write_dest_of_trim oor w fs bytes h pos t hsrc hparse hwave htrim hd with h1 | h1
    · rw [h1.2]
    · rw [h1.2.2]; exact List.prefix_append _ _
  have hcut : t.cut = (bytesCutFront oor h w.start + bytesCutEnd oor h w.end_) % 4294967296 := by
    rw [heq]
  have hDS : t.out.DataSize = (h.DataSize + 4294967296 - t.cut) % 4294967296 := by
    rw [hcut, heq]
  have hFS : t.out.FileSize = (h.FileSize + 4294967296 - t.cut) % 4294967296 := by
    rw [hcut, heq]
  have hrest : t.out.Riff = h.Riff ∧ t.out.FileType = h.FileType ∧ t.out.Fmt = h.Fmt
      ∧ t.out.FmtLen = h.FmtLen ∧ t.out.Format = h.Format ∧ t.out.NChannels = h.NChannels
      ∧ t.out.SampleRate = h.SampleRate ∧ t.out.ByteRate = h.ByteRate
      ∧ t.out.FrameSize = h.FrameSize ∧ t.out.SampleSize = h.SampleSize
      ∧ t.out.Data = h.Data := by
    rw [heq]
    exact ⟨rfl, rfl, rfl, rfl, rfl, rfl, rfl, rfl, rfl, rfl, rfl⟩
  rw [← hcut] at hlt
  refine ⟨hcut, hlt, ?_, hFS, ?_, ?_, hrest, hdest⟩
  · omega
  · intro hle
    omega
  · omega

end WavCutter
namespace WavCutter

/-! ## The scan for the `data` tag -/

theorem slice_append_left (pre rest : List Nat) (i n : Nat) (h : i + n ≤ pre.length) :
    slice (pre ++ rest) i n = slice pre i n := by
  unfold slice
  rw [List.drop_append_of_le_length (by omega)]
  rw [List.take_append_of_le_length (by simp; omega)]

theorem slice_append_right (pre rest : List Nat) (n : Nat) :
    slice (pre ++ rest) pre.length n = rest.take n := by
  unfold slice
  rw [List.drop_left]

theorem slice_append_right_add (pre rest : List Nat) (j n : Nat) :
    slice (pre ++ rest) (pre.length + j) n = slice rest j n := by
  unfold slice
  rw [List.drop_append]

/-- The scan started at read position `p` stops right after the first window, at or
after offset `p - 3`, that spells "data". -/
theorem scanData_finds (bytes : List Nat) (k : Nat) (hk : slice bytes k 4 = tagData)
    (hlen : k + 4 ≤ bytes.length) :
    ∀ (fuel p : Nat), 3 ≤ p → p - 3 ≤ k → k - (p - 3) < fuel →
      (∀ i, p - 3 ≤ i → i < k → slice bytes i 4 ≠ tagData) →
      scanData bytes fuel p = Except.ok (k + 4) := by
  intro fuel
  induction fuel with
  | zero => intro p _ _ hf; omega
  | succ n ih =>
    intro p hp hpk hf hno
    unfold scanData
    have h1 : ¬ bytes.length < p - 3 + 4 := by omega
    simp only [h1, if_false]
    by_cases hm : slice bytes (p - 3) 4 = tagData
    · simp only [hm, if_true]
      by_cases hlt : p - 3 < k
      · exact absurd hm (hno (p - 3) (le_refl _) hlt)
      · have : p - 3 = k := by omega
        rw [this]
    · simp only [hm, if_false]
      have hne : p - 3 ≠ k := by
        intro he
        rw [he] at hm
        exact hm hk
      apply ih (p - 3 + 4) (by omega) (by omega) (by omega)
      intro i hi hik
      exact hno i (by omega) hik

/-- Byte-level form of the header parse on a file whose `data` tag sits at offset
`pre.length ≥ 44`: when the tag at offset 36 is not "data" and no window from offset 41
up to the tag spells "data", the parse ends right after the four size bytes `sz` and
reports their value. -/
theorem parseHeader_scan (pre sz pcm : List Nat) (hpre : 44 ≤ pre.length)
    (hsz : sz.length = 4) (hfirst : slice pre 36 4 ≠ tagData)
    (hno : ∀ i, 41 ≤ i → i < pre.length → slice (pre ++ (tagData ++ (sz ++ pcm))) i 4 ≠ tagData) :
    parseHeader (pre ++ (tagData ++ (sz ++ pcm)))
      = Except.ok ({ decodeHeader (pre ++ (tagData ++ (sz ++ pcm))) with
          Data := tagData, DataSize := leVal sz }, pre.length + 8) := by
  have hlen : (pre ++ (tagData ++ (sz ++ pcm))).length = pre.length + 8 + pcm.length := by
    simp [tagData, hsz]; omega
  have hk : slice (pre ++ (tagData ++ (sz ++ pcm))) pre.length 4 = tagData := by
    rw [slice_append_right]; simp [tagData]
  have hscan := scanData_finds (pre ++ (tagData ++ (sz ++ pcm))) pre.length hk (by omega)
    (pre ++ (tagData ++ (sz ++ pcm))).length 44 (by norm_num) (by omega) (by omega)
    (fun i hi hik => hno i (by omega) hik)
  have hsize : slice (pre ++ (tagData ++ (sz ++ pcm))) (pre.length + 4) 4 = sz := by
    rw [slice_append_right_add]
    have : slice (tagData ++ (sz ++ pcm)) 4 4 = slice (tagData ++ (sz ++ pcm)) tagData.length 4 := rfl
    rw [this, slice_append_right, ← hsz, List.take_left]
  have hdata : (decodeHeader (pre ++ (tagData ++ (sz ++ pcm)))).Data ≠ tagData := by
    show slice (pre ++ (tagData ++ (sz ++ pcm))) 36 4 ≠ tagData
    rw [slice_append_left _ _ _ _ (by omega)]
    exact hfirst
  unfold parseHeader
  have h44 : ¬ (pre ++ (tagData ++ (sz ++ pcm))).length < 44 := by omega
  simp only [h44, if_false, hdata, ne_eq, not_false_eq_true, if_true, hscan]
  have h2 : ¬ (pre ++ (tagData ++ (sz ++ pcm))).length < pre.length + 4 + 4 := by omega
  simp only [h2, if_false, hsize]

end WavCutter
namespace WavCutter

theorem leBytes_length (n v : Nat) : (leBytes n v).length = n := by
  induction n generalizing v with
  | zero => rfl
  | succ n ih => simp [leBytes, ih]

theorem leVal_leBytes (n v : Nat) : leVal (leBytes n v) = v % 256 ^ n := by
  induction n generalizing v with
  | zero => simp [leBytes, leVal, Nat.mod_one]
  | succ n ih =>
    simp only [leBytes, leVal, ih, Nat.mod_mod]
    rw [pow_succ', Nat.mod_mul]

theorem encodeChunks_length_ge (extras : List Chunk) (hne : extras ≠ [])
    (htags : ∀ c ∈ extras, c.tag.length = 4 ∧ c.tag ≠ tagData) :
    8 ≤ (encodeChunks extras).length ∧ slice (encodeChunks extras) 0 4 ≠ tagData := by
  cases extras with
  | nil => exact absurd rfl hne
  | cons c cs =>
    have hc := htags c (List.mem_cons_self _ _)
    constructor
    · simp [encodeChunks, Chunk.encode, leBytes_length, hc.1]; omega
    · have : slice (encodeChunks (c :: cs)) 0 4 = c.tag := by
        simp only [encodeChunks, Chunk.encode, List.append_assoc, slice, List.drop_zero]
        rw [← hc.1, List.take_left]
      rw [this]
      exact hc.2

/-- C3, as amended: for a WAVE file with one or more extra chunks between the `fmt ` chunk
and the data chunk, in which no four bytes at an offset from 41 up to the data chunk's tag
spell "data", the header parse of `write` ends with `DataSize` equal to the data chunk's
declared size and with the read position right after the four size bytes, at the first
sample. -/
theorem parseHeader_extra_chunks (head : List Nat) (extras : List Chunk) (dataSize : Nat)
    (pcm : List Nat) (hhead : head.length = 36) (hne : extras ≠ [])
    (htags : ∀ c ∈ extras, c.tag.length = 4 ∧ c.tag ≠ tagData)
    (hsize : dataSize < 4294967296)
    (hno : ∀ i, 41 ≤ i → i < 36 + (encodeChunks extras).length →
      slice (riffFile head extras dataSize pcm) i 4 ≠ tagData) :
    ∃ h, parseHeader (riffFile head extras dataSize pcm)
        = Except.ok (h, 36 + (encodeChunks extras).length + 8)
      ∧ h.DataSize = dataSize
      ∧ slice (riffFile head extras dataSize pcm) (36 + (encodeChunks extras).length) 4
          = tagData
      ∧ (riffFile head extras dataSize pcm).drop (36 + (encodeChunks extras).length + 8)
          = pcm := by
  obtain ⟨h8, hfirst⟩ := encodeChunks_length_ge extras hne htags
  have hfile : riffFile head extras dataSize pcm
      = (head ++ encodeChunks extras) ++ (tagData ++ (leBytes 4 dataSize ++ pcm)) := by
    simp [riffFile]
  have hprelen : (head ++ encodeChunks extras).length = 36 + (encodeChunks extras).length := by
    simp [hhead]
  have hfirst' : slice (head ++ encodeChunks extras) 36 4 ≠ tagData := by
    have : slice (head ++ encodeChunks extras) 36 4 = slice (encodeChunks extras) 0 4 := by
      rw [← hhead]; exact slice_append_right_add head (encodeChunks extras) 0 4
    rw [this]; exact hfirst
  have hp := parseHeader_scan (head ++ encodeChunks extras) (leBytes 4 dataSize) pcm
    (by omega) (leBytes_length 4 dataSize) hfirst'
    (by
      intro i hi hik
      rw [← hfile]
      exact hno i hi (by omega))
  rw [← hfile, hprelen] at hp
  refine ⟨_, hp, ?_, ?_, ?_⟩
  · show leVal (leBytes 4 dataSize) = dataSize
    rw [leVal_leBytes]
    exact Nat.mod_eq_of_lt (by norm_num; omega)
  · rw [hfile, ← hprelen, slice_append_right]
    simp [tagData]
  · rw [hfile, ← hprelen]
    have : (head ++ encodeChunks extras).length + 8
        = ((head ++ encodeChunks extras) ++ (tagData ++ leBytes 4 dataSize)).length := by
      simp [tagData, leBytes_length]
      omega
    rw [this]
    have h2 : (head ++ encodeChunks extras) ++ (tagData ++ (leBytes 4 dataSize ++ pcm))
        = ((head ++ encodeChunks extras) ++ (tagData ++ leBytes 4 dataSize)) ++ pcm := by
      simp
    rw [h2, List.drop_left]

/-- C3, witness: the file with the "loudness" comment chunk. -/
theorem parseHeader_extra_chunks_witness :
    ∃ h, parseHeader (riffFile tinyHead [plainChunk] 16 tinyPcm)
        = Except.ok (h, 36 + (encodeChunks [plainChunk]).length + 8)
      ∧ h.DataSize = 16
      ∧ slice (riffFile tinyHead [plainChunk] 16 tinyPcm) (36 + (encodeChunks [plainChunk]).length) 4
          = tagData
      ∧ (riffFile tinyHead [plainChunk] 16 tinyPcm).drop (36 + (encodeChunks [plainChunk]).length + 8)
          = tinyPcm :=
  parseHeader_extra_chunks tinyHead [plainChunk] 16 tinyPcm (by decide) (by decide)
    (by decide) (by decide) (by decide)

/-- C3, counterexample: a valid WAVE file whose one extra chunk carries the comment
"metadata". The scan stops inside the comment: the parse reports the data size 1635017060
(the bytes "data" of the real tag read as a number) instead of the declared 16, and the
read position is 68, the offset of the real size field, not the first sample at 72. -/
theorem parseHeader_comment_chunk :
    riffFile tinyHead [commentChunk] 16 tinyPcm
        = tinyHead ++ (commentChunk.encode ++ (tagData ++ (leBytes 4 16 ++ tinyPcm)))
      ∧ commentChunk.tag ≠ tagData
      ∧ commentChunk.payload.length = 20
      ∧ (riffFile tinyHead [commentChunk] 16 tinyPcm).drop 72 = tinyPcm
      ∧ (parseHeader (riffFile tinyHead [commentChunk] 16 tinyPcm)).toOption.map
          (fun r => (r.1.DataSize, r.2)) = some (1635017060, 68) := by
  decide

end WavCutter
namespace WavCutter

/-! ## Canonical files and successful copies -/

theorem decodeHeader_append (hd rest : List Nat) (hlen : hd.length = 44) :
    decodeHeader (hd ++ rest) = decodeHeader hd := by
  unfold decodeHeader
  simp only [slice_append_left hd rest _ _ (show 0 + 4 ≤ hd.length by omega),
    slice_append_left hd rest _ _ (show 4 + 4 ≤ hd.length by omega),
    slice_append_left hd rest _ _ (show 8 + 4 ≤ hd.length by omega),
    slice_append_left hd rest _ _ (show 12 + 4 ≤ hd.length by omega),
    slice_append_left hd rest _ _ (show 16 + 4 ≤ hd.length by omega),
    slice_append_left hd rest _ _ (show 20 + 2 ≤ hd.length by omega),
    slice_append_left hd rest _ _ (show 22 + 2 ≤ hd.length by omega),
    slice_append_left hd rest _ _ (show 24 + 4 ≤ hd.length by omega),
    slice_append_left hd rest _ _ (show 28 + 4 ≤ hd.length by omega),
    slice_append_left hd rest _ _ (show 32 + 2 ≤ hd.length by omega),
    slice_append_left hd rest _ _ (show 34 + 2 ≤ hd.length by omega),
    slice_append_left hd rest _ _ (show 36 + 4 ≤ hd.length by omega),
    slice_append_left hd rest _ _ (show 40 + 4 ≤ hd.length by omega)]

/-- A file that starts with a canonical 44-byte header parses to that header, with the
read position at byte 44. -/
theorem parseHeader_canonical (hd rest : List Nat) (hlen : hd.length = 44)
    (hdata : (decodeHeader hd).Data = tagData) :
    parseHeader (hd ++ rest) = Except.ok (decodeHeader hd, 44) := by
  unfold parseHeader
  have h44 : ¬ (hd ++ rest).length < 44 := by simp [hlen]
  simp only [h44, if_false, decodeHeader_append hd rest hlen, hdata, ne_eq, not_true_eq_false]

theorem bufferPrefix_length (buffer : Buffer) (n : Nat) : (bufferPrefix buffer n).length = n := by
  simp [bufferPrefix]

theorem slice_length (bytes : List Nat) (pos len : Nat) :
    (slice bytes pos len).length = min len (bytes.length - pos) := by
  simp [slice]

/-- A read that delivers all `n` requested bytes leaves exactly them in `buffer[:n]`. -/
theorem bufferPrefix_readInto (buffer : Buffer) (data : List Nat) :
    bufferPrefix (readInto buffer data) data.length = data := by
  apply List.ext_getElem
  · simp [bufferPrefix]
  · intro i h1 h2
    simp only [bufferPrefix, List.getElem_map, List.getElem_range, readInto]
    simp only [h2, if_true]
    exact (List.getD_eq_getElem _ _ h2)

/-- A cut whose range checks pass, whose output fits the buffer, whose destination is not
a directory and differs from the source, and whose copy start lies inside the source
file, succeeds; the destination then holds the output header followed by
`buffer[:DataSize]` after the read. -/
theorem write_ok_of_trim (oor : Fl → Nat) (w : WavCopyWriter) (fs : FS) (bytes : List Nat)
    (h : WavHeader) (pos : Nat) (t : Trim) (hsrc : fs w.source = some (Node.file bytes))
    (hparse : parseHeader bytes = Except.ok (h, pos)) (hwave : h.FileType = tagWave)
    (htrim : trim oor h w.start w.end_ = Except.ok t) (hdest : fs w.dest ≠ some Node.dir)
    (hne : w.source ≠ w.dest) (hcap : t.out.DataSize ≤ 5000000)
    (hpos : pos + t.front < bytes.length) :
    (write oor w fs).err = none
    ∧ (write oor w fs).fs.contents w.dest
        = encodeHeader t.out
          ++ bufferPrefix (readInto w.buffer (slice bytes (pos + t.front) t.out.DataSize))
              t.out.DataSize
    ∧ (write oor w fs).fs w.source = some (Node.file bytes) := by
  have hpos' : 0 < t.out.DataSize := by
    have ht := (trim_ok_iff oor h w.start w.end_ t).mp htrim
    obtain ⟨-, hlt, heq⟩ := ht
    have hD := (parseHeader_bounds hparse).1
    have : t.out.DataSize = (h.DataSize + 4294967296
        - (bytesCutFront oor h w.start + bytesCutEnd oor h w.end_) % 4294967296)
          % 4294967296 := by rw [heq]
    omega
  have hcont : (fs.set w.dest (Node.file (encodeHeader t.out))).contents w.source = bytes := by
    simp [FS.contents, FS.set, hne, hsrc]
  rw [write_of_parse oor w fs bytes h pos hsrc hparse hwave, htrim]
  simp only []
  have hbig : ¬ 5000000 < t.out.DataSize := by omega
  have hz : ¬ (slice bytes (pos + t.front) t.out.DataSize).length = 0 := by
    rw [slice_length]; omega
  simp only [hbig, if_false, hcont, hz]
  refine ⟨trivial, FS.contents_set_same _ _ _, ?_⟩
  simp [FS.set, hne, hsrc]

/-- When, in addition, the source holds all of the requested range, the destination is
the output header followed by exactly that range of the source. -/
theorem write_copies_range (oor : Fl → Nat) (w : WavCopyWriter) (fs : FS) (bytes : List Nat)
    (h : WavHeader) (pos : Nat) (t : Trim) (hsrc : fs w.source = some (Node.file bytes))
    (hparse : parseHeader bytes = Except.ok (h, pos)) (hwave : h.FileType = tagWave)
    (htrim : trim oor h w.start w.end_ = Except.ok t) (hdest : fs w.dest ≠ some Node.dir)
    (hne : w.source ≠ w.dest) (hcap : t.out.DataSize ≤ 5000000)
    (hall : pos + t.front + t.out.DataSize ≤ bytes.length) (hD : 0 < t.out.DataSize) :
    (write oor w fs).err = none
    ∧ (write oor w fs).fs.contents w.dest
        = encodeHeader t.out ++ slice bytes (pos + t.front) t.out.DataSize := by
  have hk := write_ok_of_trim oor w fs bytes h pos t hsrc hparse hwave htrim hdest hne hcap
    (by omega)
  refine ⟨hk.1, ?_⟩
  rw [hk.2.1]
  have hl : (slice bytes (pos + t.front) t.out.DataSize).length = t.out.DataSize := by
    rw [slice_length]; omega
  have := bufferPrefix_readInto w.buffer (slice bytes (pos + t.front) t.out.DataSize)
  rw [hl] at this
  rw [this]

end WavCutter
namespace WavCutter

/-! ## Claims about one cut -/

/-- C8, witness: `tinyWav` lasts four seconds; a cut ending at second five. -/
theorem write_end_after_source_witness :
    (write oorZero ⟨"in/a.wav", "out/x.wav", Fl.fin 0 0, Fl.ofNat f32 5, zeroBuffer⟩ fsTiny).err
        = some WriteError.endAfterSource
      ∧ (write oorZero ⟨"in/a.wav", "out/x.wav", Fl.fin 0 0, Fl.ofNat f32 5, zeroBuffer⟩ fsTiny).fs
        = fsTiny
      ∧ (write oorZero ⟨"in/a.wav", "out/x.wav", Fl.fin 0 0, Fl.ofNat f32 5, zeroBuffer⟩ fsTiny).buffer
        = zeroBuffer :=
  write_end_after_source oorZero ⟨"in/a.wav", "out/x.wav", Fl.fin 0 0, Fl.ofNat f32 5, zeroBuffer⟩
    fsTiny tinyWav (pcmHeader 1 4 8 16) 44 (by decide) (by decide) (by decide) (by decide)

theorem fsCd_source (n : Nat) (d : String) (s e : Fl) :
    fsCd n (cdCut d s e).source = some (Node.file (cdWav n)) := by
  simp [fsCd, cdCut]

theorem fsCd_dest (n : Nat) (d : String) (s e : Fl) (hd : d ≠ "in/c.wav") :
    fsCd n (cdCut d s e).dest ≠ some Node.dir := by
  simp [fsCd, cdCut, hd]

theorem parseHeader_cdWav_6000000 :
    parseHeader (cdWav 6000000) = Except.ok (cdHeader 6000000, 44) := by
  have h := parseHeader_canonical (encodeHeader (cdHeader 6000000)) (List.replicate 6000000 0)
    (by decide) (by decide)
  have hd : decodeHeader (encodeHeader (cdHeader 6000000)) = cdHeader 6000000 := by decide
  rw [hd] at h
  exact h

/-- C5, what the code does: when the trimmed data size exceeds 5,000,000 bytes, `write`
returns the size-limit error only after it has created the destination and written the
output header to it: the destination is left holding the 44-byte header. -/
theorem write_too_big_leaves_header (oor : Fl → Nat) (w : WavCopyWriter) (fs : FS)
    (bytes : List Nat) (h : WavHeader) (pos : Nat) (t : Trim)
    (hsrc : fs w.source = some (Node.file bytes))
    (hparse : parseHeader bytes = Except.ok (h, pos)) (hwave : h.FileType = tagWave)
    (htrim : trim oor h w.start w.end_ = Except.ok t) (hdest : fs w.dest ≠ some Node.dir)
    (hbig : 5000000 < t.out.DataSize) :
    (write oor w fs).err = some WriteError.tooBig
      ∧ (write oor w fs).fs w.dest = some (Node.file (encodeHeader t.out)) := by
  rw [write_of_parse oor w fs bytes h pos hsrc hparse hwave, htrim]
  simp only [hbig, if_true]
  exact ⟨trivial, FS.set_same _ _ _⟩

/-- C5, witness: the first thirty seconds of a complete 6,000,000-byte recording come to
5,292,000 bytes; nothing was at `out/c.wav` before the call. -/
theorem write_too_big_leaves_header_witness :
    fsCd 6000000 "out/c.wav" = none
      ∧ (write oorZero (cdCut "out/c.wav" (Fl.fin 0 0) (Fl.ofNat f32 30)) (fsCd 6000000)).err
        = some WriteError.tooBig
      ∧ (write oorZero (cdCut "out/c.wav" (Fl.fin 0 0) (Fl.ofNat f32 30)) (fsCd 6000000)).fs
          (cdCut "out/c.wav" (Fl.fin 0 0) (Fl.ofNat f32 30)).dest
        = some (Node.file (encodeHeader
            (Trim.mk 0 708000 708000
              { cdHeader 6000000 with DataSize := 5292000, FileSize := 5292036 }).out)) :=
  ⟨by decide,
    write_too_big_leaves_header oorZero (cdCut "out/c.wav" (Fl.fin 0 0) (Fl.ofNat f32 30))
      (fsCd 6000000) (cdWav 6000000) (cdHeader 6000000) 44
      ⟨0, 708000, 708000, { cdHeader 6000000 with DataSize := 5292000, FileSize := 5292036 }⟩
      (fsCd_source _ _ _ _) parseHeader_cdWav_6000000 (by decide) (by decide)
      (fsCd_dest _ _ _ _ (by decide)) (by decide)⟩

end WavCutter
namespace WavCutter

theorem cdWav_length (n : Nat) : (cdWav n).length = 44 + n := by
  simp [cdWav, encodeHeader, cdHeader, pcmHeader, leBytes_length, tagWave, tagData]
  omega

theorem parseHeader_cdWav_352800 :
    parseHeader (cdWav 352800) = Except.ok (cdHeader 352800, 44) := by
  have h := parseHeader_canonical (encodeHeader (cdHeader 352800)) (List.replicate 352800 0)
    (by decide) (by decide)
  have hd : decodeHeader (encodeHeader (cdHeader 352800)) = cdHeader 352800 := by decide
  rw [hd] at h
  exact h

theorem parseHeader_cdWav_100000000 :
    parseHeader (cdWav 100000000) = Except.ok (cdHeader 100000000, 44) := by
  have h := parseHeader_canonical (encodeHeader (cdHeader 100000000))
    (List.replicate 100000000 0) (by decide) (by decide)
  have hd : decodeHeader (encodeHeader (cdHeader 100000000)) = cdHeader 100000000 := by decide
  rw [hd] at h
  exact h

/-- A cut whose range checks pass but whose copy start lies at or past the end of the
source fails at the read, after the destination has been created with the header. -/
theorem write_read_past_end (oor : Fl → Nat) (w : WavCopyWriter) (fs : FS) (bytes : List Nat)
    (h : WavHeader) (pos : Nat) (t : Trim) (hsrc : fs w.source = some (Node.file bytes))
    (hparse : parseHeader bytes = Except.ok (h, pos)) (hwave : h.FileType = tagWave)
    (htrim : trim oor h w.start w.end_ = Except.ok t) (hdest : fs w.dest ≠ some Node.dir)
    (hne : w.source ≠ w.dest) (hcap : t.out.DataSize ≤ 5000000)
    (hpast : bytes.length ≤ pos + t.front) :
    (write oor w fs).err = some WriteError.io
      ∧ (write oor w fs).fs w.dest = some (Node.file (encodeHeader t.out)) := by
  have hcont : (fs.set w.dest (Node.file (encodeHeader t.out))).contents w.source = bytes := by
    simp [FS.contents, FS.set, hne, hsrc]
  rw [write_of_parse oor w fs bytes h pos hsrc hparse hwave, htrim]
  simp only []
  have hbig : ¬ 5000000 < t.out.DataSize := by omega
  have hz : (slice bytes (pos + t.front) t.out.DataSize).length = 0 := by
    rw [slice_length]; omega
  simp only [hbig, if_false, hcont, hz, if_true]
  exact ⟨trivial, FS.set_same _ _ _⟩

/-- C4, failing input: a complete two-second recording (352,800 data bytes at 176,400
bytes per second) and the window from second 24347 to second 0. The end is not beyond the
duration, `bytes_cut_front = 4294810880` and `bytes_cut_end = 352800` add up to far more
than the data size, but their `uint32` sum wraps to 196384, so the check of line 113 lets
the cut through: `write` creates the destination, writes a header announcing 156,416 data
bytes, and fails only at the read. -/
theorem write_start_past_end_accepted :
    Fl.gt (Fl.fin 0 0) (srcDuration (cdHeader 352800)) = false
      ∧ bytesCutFront oorZero (cdHeader 352800) (Fl.ofNat f32 24347) = 4294810880
      ∧ bytesCutEnd oorZero (cdHeader 352800) (Fl.fin 0 0) = 352800
      ∧ (cdHeader 352800).DataSize ≤ 4294810880 + 352800
      ∧ fsCd 352800 "out/c.wav" = none
      ∧ (write oorZero (cdCut "out/c.wav" (Fl.ofNat f32 24347) (Fl.fin 0 0)) (fsCd 352800)).err
          = some WriteError.io
      ∧ (write oorZero (cdCut "out/c.wav" (Fl.ofNat f32 24347) (Fl.fin 0 0)) (fsCd 352800)).fs
            (cdCut "out/c.wav" (Fl.ofNat f32 24347) (Fl.fin 0 0)).dest
          = some (Node.file (encodeHeader
              (Trim.mk 4294810880 352800 196384
                { cdHeader 352800 with DataSize := 156416, FileSize := 156452 }).out)) := by
  refine ⟨by decide, by decide, by decide, by decide, by decide, ?_⟩
  exact write_read_past_end oorZero (cdCut "out/c.wav" (Fl.ofNat f32 24347) (Fl.fin 0 0))
    (fsCd 352800) (cdWav 352800) (cdHeader 352800) 44
    ⟨4294810880, 352800, 196384, { cdHeader 352800 with DataSize := 156416, FileSize := 156452 }⟩
    (fsCd_source _ _ _ _) parseHeader_cdWav_352800 (by decide) (by decide)
    (fsCd_dest _ _ _ _ (by decide)) (by decide) (by decide)
    (by rw [cdWav_length]; decide)

/-- C1, failing input: one writer cuts `in/a.wav` (16 data bytes `1 .. 16`) and then
`in/b.wav`, whose header announces 16 data bytes but which holds only four
(`101 .. 104`). The second call returns no error, and the file it writes is the header,
the four bytes of `in/b.wav`, and then bytes `5 .. 16` of `in/a.wav` left in the buffer by
the first call. -/
theorem write_short_source_leaks_buffer :
    (encodeHeader (pcmHeader 1 4 8 16)).length = 44
      ∧ fsTiny "in/b.wav"
          = some (Node.file (encodeHeader (pcmHeader 1 4 8 16) ++ [101, 102, 103, 104]))
      ∧ (write oorZero ⟨"in/a.wav", "out/x.wav", Fl.fin 0 0, Fl.ofNat f32 4, zeroBuffer⟩
          fsTiny).err = none
      ∧ (write oorZero
          ⟨"in/b.wav", "out/y.wav", Fl.fin 0 0, Fl.ofNat f32 4,
            (write oorZero ⟨"in/a.wav", "out/x.wav", Fl.fin 0 0, Fl.ofNat f32 4, zeroBuffer⟩
              fsTiny).buffer⟩
          (write oorZero ⟨"in/a.wav", "out/x.wav", Fl.fin 0 0, Fl.ofNat f32 4, zeroBuffer⟩
            fsTiny).fs).err = none
      ∧ (write oorZero
          ⟨"in/b.wav", "out/y.wav", Fl.fin 0 0, Fl.ofNat f32 4,
            (write oorZero ⟨"in/a.wav", "out/x.wav", Fl.fin 0 0, Fl.ofNat f32 4, zeroBuffer⟩
              fsTiny).buffer⟩
          (write oorZero ⟨"in/a.wav", "out/x.wav", Fl.fin 0 0, Fl.ofNat f32 4, zeroBuffer⟩
            fsTiny).fs).fs "out/y.wav"
        = some (Node.file (encodeHeader (pcmHeader 1 4 8 16)
            ++ [101, 102, 103, 104, 5, 6, 7, 8, 9, 10, 11, 12, 13, 14, 15, 16])) := by
  decide

end WavCutter
namespace WavCutter

/-! ## The output header -/

theorem parseHeader_cdWav_176400 :
    parseHeader (cdWav 176400) = Except.ok (cdHeader 176400, 44) := by
  have h := parseHeader_canonical (encodeHeader (cdHeader 176400)) (List.replicate 176400 0)
    (by decide) (by decide)
  have hd : decodeHeader (encodeHeader (cdHeader 176400)) = cdHeader 176400 := by decide
  rw [hd] at h
  exact h

/-- C2, as amended: for a parsed header and a window that passes both range checks, if
`bytes_cut_front + bytes_cut_end` does not overflow 32 bits and does not exceed the
source header's `FileSize` field, the output header has `DataSize = D - totalCut` and
`FileSize = srcFileSize - totalCut` with the one `totalCut = bytes_cut_front +
bytes_cut_end` (so `FileSize - DataSize` is unchanged), every other field is the source
header's, and a call that succeeds leaves these 44 bytes at the start of the
destination. -/
theorem write_out_header (oor : Fl → Nat) (w : WavCopyWriter) (fs : FS) (bytes : List Nat)
    (h : WavHeader) (pos : Nat) (t : Trim) (hsrc : fs w.source = some (Node.file bytes))
    (hparse : parseHeader bytes = Except.ok (h, pos)) (hwave : h.FileType = tagWave)
    (htrim : trim oor h w.start w.end_ = Except.ok t)
    (hsum : bytesCutFront oor h w.start + bytesCutEnd oor h w.end_ < 4294967296)
    (hfile : bytesCutFront oor h w.start + bytesCutEnd oor h w.end_ ≤ h.FileSize) :
    t.cut = bytesCutFront oor h w.start + bytesCutEnd oor h w.end_
    ∧ t.cut < h.DataSize
    ∧ t.out.DataSize = h.DataSize - t.cut
    ∧ t.out.FileSize = h.FileSize - t.cut
    ∧ t.out.FileSize + h.DataSize = h.FileSize + t.out.DataSize
    ∧ (t.out.Riff = h.Riff ∧ t.out.FileType = h.FileType ∧ t.out.Fmt = h.Fmt
        ∧ t.out.FmtLen = h.FmtLen ∧ t.out.Format = h.Format ∧ t.out.NChannels = h.NChannels
        ∧ t.out.SampleRate = h.SampleRate ∧ t.out.ByteRate = h.ByteRate
        ∧ t.out.FrameSize = h.FrameSize ∧ t.out.SampleSize = h.SampleSize
        ∧ t.out.Data = h.Data)
    ∧ ((write oor w fs).err = none →
        encodeHeader t.out <+: (write oor w fs).fs.contents w.dest) := by
  obtain ⟨h1, h2, h3, h4, h5, -, h7, h8⟩ :=
    trim_out_fields oor w fs bytes h pos t hsrc hparse hwave htrim
  have hc : t.cut = bytesCutFront oor h w.start + bytesCutEnd oor h w.end_ := by
    rw [h1]; exact Nat.mod_eq_of_lt hsum
  have hle : t.cut ≤ h.FileSize := by rw [hc]; exact hfile
  refine ⟨hc, h2, h3, (h5 hle).1, (h5 hle).2, h7, ?_⟩
  intro herr
  by_cases hd : fs w.dest = some Node.dir
  · exfalso
    rw [write_of_parse oor w fs bytes h pos hsrc hparse hwave, htrim] at herr
    simp [hd] at herr
  · exact h8 hd

/-- C2, witness: the cut of `tinyWav` to seconds one to three removes four bytes at each
end: data size 16 becomes 8 and the file size field 52 becomes 44. -/
theorem write_out_header_witness :
    (Trim.mk 4 4 8 { pcmHeader 1 4 8 16 with DataSize := 8, FileSize := 44 }).out.DataSize
        = (pcmHeader 1 4 8 16).DataSize
          - (Trim.mk 4 4 8 { pcmHeader 1 4 8 16 with DataSize := 8, FileSize := 44 }).cut
      ∧ (Trim.mk 4 4 8 { pcmHeader 1 4 8 16 with DataSize := 8, FileSize := 44 }).out.FileSize
        = (pcmHeader 1 4 8 16).FileSize
          - (Trim.mk 4 4 8 { pcmHeader 1 4 8 16 with DataSize := 8, FileSize := 44 }).cut :=
  ⟨(write_out_header oorZero
      ⟨"in/a.wav", "out/x.wav", Fl.ofNat f32 1, Fl.ofNat f32 3, zeroBuffer⟩ fsTiny tinyWav
      (pcmHeader 1 4 8 16) 44
      ⟨4, 4, 8, { pcmHeader 1 4 8 16 with DataSize := 8, FileSize := 44 }⟩
      (by decide) (by decide) (by decide) (by decide) (by decide) (by decide)).2.2.1,
    (write_out_header oorZero
      ⟨"in/a.wav", "out/x.wav", Fl.ofNat f32 1, Fl.ofNat f32 3, zeroBuffer⟩ fsTiny tinyWav
      (pcmHeader 1 4 8 16) 44
      ⟨4, 4, 8, { pcmHeader 1 4 8 16 with DataSize := 8, FileSize := 44 }⟩
      (by decide) (by decide) (by decide) (by decide) (by decide) (by decide)).2.2.2.1⟩

/-- C2, counterexample, at two inputs. First, a complete one-second recording (176,400
data bytes, file-size field 176,436) cut from second 24347.5 to second 0: both range
checks pass, `bytes_cut_front = 4294898944` and `bytes_cut_end = 176400`, and the output
`DataSize` is 68,352, not `176400 - (4294898944 + 176400)`. Second, `tinyWav` with its
file-size field at zero, cut from second 1 to second 3: the call succeeds,
`bytes_cut_front = bytes_cut_end = 4`, and the output `FileSize` is 4,294,967,288, not
`0 - 8`. -/
theorem out_header_wraps :
    parseHeader (cdWav 176400) = Except.ok (cdHeader 176400, 44)
      ∧ (trim oorZero (cdHeader 176400) (Fl.fin 48695 (-1)) (Fl.fin 0 0)).toOption.map
          (fun t => (t.front, t.cutEnd, t.out.DataSize)) = some (4294898944, 176400, 68352)
      ∧ (68352 : Int) ≠ ((cdHeader 176400).DataSize : Int) - (4294898944 + 176400)
      ∧ parseHeader zeroSizeWav = Except.ok (zeroSizeHeader, 44)
      ∧ (trim oorZero zeroSizeHeader (Fl.ofNat f32 1) (Fl.ofNat f32 3)).toOption.map
          (fun t => (t.front, t.cutEnd, t.out.FileSize)) = some (4, 4, 4294967288)
      ∧ (4294967288 : Int) ≠ (zeroSizeHeader.FileSize : Int) - (4 + 4)
      ∧ (write oorZero ⟨"in/z.wav", "out/z.wav", Fl.ofNat f32 1, Fl.ofNat f32 3, zeroBuffer⟩
          fsZero).err = none
      ∧ (write oorZero ⟨"in/z.wav", "out/z.wav", Fl.ofNat f32 1, Fl.ofNat f32 3, zeroBuffer⟩
          fsZero).fs "out/z.wav"
        = some (Node.file (encodeHeader
            { zeroSizeHeader with DataSize := 8, FileSize := 4294967288 }
            ++ [5, 6, 7, 8, 9, 10, 11, 12])) :=
  ⟨parseHeader_cdWav_176400, by decide, by decide, by decide, by decide, by decide, by decide,
    by decide⟩

end WavCutter
namespace WavCutter

/-! ## Split mode -/

theorem wrap_sub_eq (D c : Nat) (hD : D < 4294967296) (hc : c < D) :
    (D + 4294967296 - c) % 4294967296 = D - c := by
  omega

theorem split_arith (D fs em fm ee : Nat) (hD : D < 4294967296)
    (ha1 : (fs + em) % 4294967296 < D) (hb1 : (fm + ee) % 4294967296 < D)
    (hc1 : (fs + ee) % 4294967296 < D) :
    ((D + 4294967296 - (fs + em) % 4294967296) % 4294967296
        + (D + 4294967296 - (fm + ee) % 4294967296) % 4294967296 + fm + em) % 4294967296
      = ((D + 4294967296 - (fs + ee) % 4294967296) % 4294967296 + D) % 4294967296 := by
  rw [wrap_sub_eq D _ hD ha1, wrap_sub_eq D _ hD hb1, wrap_sub_eq D _ hD hc1]
  have qa := Nat.mod_add_div (fs + em) 4294967296
  have qb := Nat.mod_add_div (fm + ee) 4294967296
  have qc := Nat.mod_add_div (fs + ee) 4294967296
  generalize (fs + em) % 4294967296 = ca at *
  generalize (fm + ee) % 4294967296 = cb at *
  generalize (fs + ee) % 4294967296 = cc at *
  generalize (fs + em) / 4294967296 = ka at *
  generalize (fm + ee) / 4294967296 = kb at *
  generalize (fs + ee) / 4294967296 = kc at *
  change Nat.ModEq 4294967296 _ _
  rw [Nat.modEq_iff_dvd]
  refine ⟨(kc : Int) - ka - kb, ?_⟩
  push_cast [Nat.cast_sub (le_of_lt ha1), Nat.cast_sub (le_of_lt hb1), Nat.cast_sub (le_of_lt hc1)]
  have qa' : (fs : Int) + em = ca + 4294967296 * ka := by exact_mod_cast qa.symm
  have qb' : (fm : Int) + ee = cb + 4294967296 * kb := by exact_mod_cast qb.symm
  have qc' : (fs : Int) + ee = cc + 4294967296 * kc := by exact_mod_cast qc.symm
  linarith

/-- Split mode cuts `[start, mid]` and `[mid, end]` with one `mid`, and, in the `uint32`
arithmetic of the code, the sizes of the halves and of the single cut are tied by the
bytes cut in front of and after the midpoint. -/
theorem split_identity (env : Env) (cfg : Config) (entry : List String)
    (start_s end_s diffError ratioError : Fl) (fs : FS) (buffer : Buffer) (src out : String)
    (h : WavHeader) (ta tb tc : Trim)
    (hsplit : cfg.splitInHalf = true)
    (hsrc : entryAt entry cfg.srcFileIndex = some src)
    (hout : entryAt entry cfg.outFileIndex = some out)
    (hD : h.DataSize < 4294967296)
    (ha : trim env.oor h (Fl.cast f32 (Fl.add f64 start_s cfg.offsetStart))
      (Fl.cast f32 (splitMid (Fl.add f64 start_s cfg.offsetStart)
        (Fl.add f64 end_s cfg.offsetEnd))) = Except.ok ta)
    (hb : trim env.oor h
      (Fl.cast f32 (splitMid (Fl.add f64 start_s cfg.offsetStart)
        (Fl.add f64 end_s cfg.offsetEnd)))
      (Fl.cast f32 (Fl.add f64 end_s cfg.offsetEnd)) = Except.ok tb)
    (hc : trim env.oor h (Fl.cast f32 (Fl.add f64 start_s cfg.offsetStart))
      (Fl.cast f32 (Fl.add f64 end_s cfg.offsetEnd)) = Except.ok tc) :
    (cutAndDelete env cfg entry start_s end_s diffError ratioError fs buffer).cuts.map
        (fun c => (c.start, c.end_))
      = [(Fl.cast f32 (Fl.add f64 start_s cfg.offsetStart),
          Fl.cast f32 (splitMid (Fl.add f64 start_s cfg.offsetStart)
            (Fl.add f64 end_s cfg.offsetEnd))),
         (Fl.cast f32 (splitMid (Fl.add f64 start_s cfg.offsetStart)
            (Fl.add f64 end_s cfg.offsetEnd)),
          Fl.cast f32 (Fl.add f64 end_s cfg.offsetEnd))]
    ∧ (ta.out.DataSize + tb.out.DataSize
          + bytesCutFront env.oor h (Fl.cast f32 (splitMid (Fl.add f64 start_s cfg.offsetStart)
              (Fl.add f64 end_s cfg.offsetEnd)))
          + bytesCutEnd env.oor h (Fl.cast f32 (splitMid (Fl.add f64 start_s cfg.offsetStart)
              (Fl.add f64 end_s cfg.offsetEnd)))) % 4294967296
        = (tc.out.DataSize + h.DataSize) % 4294967296 := by
  constructor
  · unfold cutAndDelete
    simp only [hsrc, hout, hsplit, if_true, splitMid]
    split <;> rfl
  · obtain ⟨-, ha1, ha2⟩ := (trim_ok_iff _ _ _ _ _).mp ha
    obtain ⟨-, hb1, hb2⟩ := (trim_ok_iff _ _ _ _ _).mp hb
    obtain ⟨-, hc1, hc2⟩ := (trim_ok_iff _ _ _ _ _).mp hc
    have ea : ta.out.DataSize = (h.DataSize + 4294967296
        - (bytesCutFront env.oor h (Fl.cast f32 (Fl.add f64 start_s cfg.offsetStart))
          + bytesCutEnd env.oor h (Fl.cast f32 (splitMid (Fl.add f64 start_s cfg.offsetStart)
              (Fl.add f64 end_s cfg.offsetEnd)))) % 4294967296) % 4294967296 := by rw [ha2]
    have eb : tb.out.DataSize = (h.DataSize + 4294967296
        - (bytesCutFront env.oor h (Fl.cast f32 (splitMid (Fl.add f64 start_s cfg.offsetStart)
              (Fl.add f64 end_s cfg.offsetEnd)))
          + bytesCutEnd env.oor h (Fl.cast f32 (Fl.add f64 end_s cfg.offsetEnd)))
            % 4294967296) % 4294967296 := by rw [hb2]
    have ec : tc.out.DataSize = (h.DataSize + 4294967296
        - (bytesCutFront env.oor h (Fl.cast f32 (Fl.add f64 start_s cfg.offsetStart))
          + bytesCutEnd env.oor h (Fl.cast f32 (Fl.add f64 end_s cfg.offsetEnd)))
            % 4294967296) % 4294967296 := by rw [hc2]
    rw [ea, eb, ec]
    exact split_arith _ _ _ _ _ hD ha1 hb1 hc1

/-- C9, counterexample, at two inputs. First, a complete recording of 100,000,000 data
bytes (16-bit stereo at 44100 Hz, 4 bytes per frame, about 567 seconds) and the window
from second 2 to second 5.2, with midpoint 3.6. All three cuts succeed. The halves hold
282,232 and 282,240 data bytes, the single cut 564,480: the halves fall 8 bytes, two
frames, short of it. Second, a header of 16,500,000 data bytes (8-bit mono at 48000 Hz,
1 byte per frame, 343.75 seconds) and the window from second 63 to second 76.9: all three
cuts pass both range checks, each half has 333,601 data bytes, the single cut 667,200:
the halves hold 2 bytes, two frames, more than it. -/
theorem split_halves_off_by_two_frames :
    Fl.le (Fl.fin 0 0) (Fl.cast f32 splitS) = true
      ∧ Fl.le (Fl.cast f32 splitS) (Fl.cast f32 splitE) = true
      ∧ Fl.le (Fl.cast f32 splitE) (srcDuration (cdHeader 100000000)) = true
      ∧ (cdHeader 100000000).FrameSize = 4
      ∧ (write oorZero (cdCut "out/a_c.wav" (Fl.cast f32 splitS) (Fl.cast f32 splitM))
          (fsCd 100000000)).err = none
      ∧ ((write oorZero (cdCut "out/a_c.wav" (Fl.cast f32 splitS) (Fl.cast f32 splitM))
          (fsCd 100000000)).fs.contents "out/a_c.wav").length = 44 + 282232
      ∧ (write oorZero (cdCut "out/b_c.wav" (Fl.cast f32 splitM) (Fl.cast f32 splitE))
          (fsCd 100000000)).err = none
      ∧ ((write oorZero (cdCut "out/b_c.wav" (Fl.cast f32 splitM) (Fl.cast f32 splitE))
          (fsCd 100000000)).fs.contents "out/b_c.wav").length = 44 + 282240
      ∧ (write oorZero (cdCut "out/c.wav" (Fl.cast f32 splitS) (Fl.cast f32 splitE))
          (fsCd 100000000)).err = none
      ∧ ((write oorZero (cdCut "out/c.wav" (Fl.cast f32 splitS) (Fl.cast f32 splitE))
          (fsCd 100000000)).fs.contents "out/c.wav").length = 44 + 564480
      ∧ 282232 + 282240 + 4 < 564480
      ∧ monoHeader.FrameSize = 1
      ∧ monoHeader.DataSize < 16777216
      ∧ Fl.le (Fl.fin 0 0) monoS = true
      ∧ Fl.le monoS monoE = true
      ∧ Fl.le (Fl.cast f32 monoE) (srcDuration monoHeader) = true
      ∧ (trim oorZero monoHeader (Fl.cast f32 monoS)
          (Fl.cast f32 (splitMid monoS monoE))).toOption.map (fun t => t.out.DataSize)
        = some 333601
      ∧ (trim oorZero monoHeader (Fl.cast f32 (splitMid monoS monoE))
          (Fl.cast f32 monoE)).toOption.map (fun t => t.out.DataSize)
        = some 333601
      ∧ (trim oorZero monoHeader (Fl.cast f32 monoS)
          (Fl.cast f32 monoE)).toOption.map (fun t => t.out.DataSize)
        = some 667200
      ∧ 667200 + 1 < 333601 + 333601 := by
  have ha := write_ok_of_trim oorZero
    (cdCut "out/a_c.wav" (Fl.cast f32 splitS) (Fl.cast f32 splitM)) (fsCd 100000000)
    (cdWav 100000000) (cdHeader 100000000) 44
    ⟨352800, 99364968, 99717768,
      { cdHeader 100000000 with DataSize := 282232, FileSize := 282268 }⟩
    (fsCd_source _ _ _ _) parseHeader_cdWav_100000000 (by decide) (by decide)
    (fsCd_dest _ _ _ _ (by decide)) (by decide) (by decide) (by rw [cdWav_length]; decide)
  have hb := write_ok_of_trim oorZero
    (cdCut "out/b_c.wav" (Fl.cast f32 splitM) (Fl.cast f32 splitE)) (fsCd 100000000)
    (cdWav 100000000) (cdHeader 100000000) 44
    ⟨635040, 99082720, 99717760,
      { cdHeader 100000000 with DataSize := 282240, FileSize := 282276 }⟩
    (fsCd_source _ _ _ _) parseHeader_cdWav_100000000 (by decide) (by decide)
    (fsCd_dest _ _ _ _ (by decide)) (by decide) (by decide) (by rw [cdWav_length]; decide)
  have hc := write_ok_of_trim oorZero
    (cdCut "out/c.wav" (Fl.cast f32 splitS) (Fl.cast f32 splitE)) (fsCd 100000000)
    (cdWav 100000000) (cdHeader 100000000) 44
    ⟨352800, 99082720, 99435520,
      { cdHeader 100000000 with DataSize := 564480, FileSize := 564516 }⟩
    (fsCd_source _ _ _ _) parseHeader_cdWav_100000000 (by decide) (by decide)
    (fsCd_dest _ _ _ _ (by decide)) (by decide) (by decide) (by rw [cdWav_length]; decide)
  have la : (encodeHeader { cdHeader 100000000 with DataSize := 282232, FileSize := 282268 }).length
      = 44 := by decide
  have lb : (encodeHeader { cdHeader 100000000 with DataSize := 282240, FileSize := 282276 }).length
      = 44 := by decide
  have lc : (encodeHeader { cdHeader 100000000 with DataSize := 564480, FileSize := 564516 }).length
      = 44 := by decide
  refine ⟨by decide, by decide, by decide, by decide, ha.1, ?_, hb.1, ?_, hc.1, ?_, by decide,
    by decide, by decide, by decide, by decide, by decide, by decide, by decide, by decide,
    by decide⟩
  · have h2 := ha.2.1
    simp only [cdCut] at h2 ⊢
    rw [h2, List.length_append, bufferPrefix_length, la]
  · have h2 := hb.2.1
    simp only [cdCut] at h2 ⊢
    rw [h2, List.length_append, bufferPrefix_length, lb]
  · have h2 := hc.2.1
    simp only [cdCut] at h2 ⊢
    rw [h2, List.length_append, bufferPrefix_length, lc]

end WavCutter
namespace WavCutter

/-! ## The worker: quality gates -/

theorem diffGate_eq (env : Env) (cfg : Config) (entry : List String) (d : Fl)
    (hd : hasDiffError cfg entry = true →
      (entryAt entry cfg.diffErrorIndex).bind env.parseFloat = some d) :
    diffGate env cfg entry =
      if hasDiffError cfg entry = true ∧ Fl.gt cfg.maxError (Fl.fin 0 0) = true
          ∧ Fl.gt d cfg.maxError = true then Gate.skipped
      else Gate.pass (if hasDiffError cfg entry = true then d else Fl.fin 0 0) := by
  unfold diffGate
  by_cases hh : hasDiffError cfg entry = true
  · obtain ⟨s, hs1, hs2⟩ := Option.bind_eq_some.mp (hd hh)
    simp only [hh, if_true, hs1, hs2, true_and, Bool.and_eq_true]
  · simp only [hh, if_false, false_and, Bool.false_eq_true]

theorem ratioGate_eq (env : Env) (cfg : Config) (entry : List String) (ratio : Fl)
    (hr : hasRatioError cfg entry = true →
      (entryAt entry cfg.ratioErrorIndex).bind env.parseFloat = some ratio) :
    ratioGate env cfg entry =
      if hasRatioError cfg entry = true ∧ Fl.gt cfg.maxRatioError (Fl.fin 0 0) = true
          ∧ Fl.gt (Fl.abs (Fl.sub f64 (Fl.fin 1 0) ratio)) cfg.maxRatioError = true then
        Gate.skipped
      else Gate.pass (if hasRatioError cfg entry = true
        then Fl.abs (Fl.sub f64 (Fl.fin 1 0) ratio) else Fl.fin 0 0) := by
  unfold ratioGate
  by_cases hh : hasRatioError cfg entry = true
  · obtain ⟨s, hs1, hs2⟩ := Option.bind_eq_some.mp (hr hh)
    simp only [hh, if_true, hs1, hs2, true_and, Bool.and_eq_true]
  · simp only [hh, if_false, false_and, Bool.false_eq_true]

/-- Once the gates are passed the record is never skipped: either an index is bad, or at
least one cut is issued. -/
theorem cutAndDelete_outcome (env : Env) (cfg : Config) (entry : List String)
    (start_s end_s diffError ratioError : Fl) (fs : FS) (buffer : Buffer) :
    ((cutAndDelete env cfg entry start_s end_s diffError ratioError fs buffer).outcome
        = Outcome.panicked
      ∧ (entryAt entry cfg.srcFileIndex = none ∨ entryAt entry cfg.outFileIndex = none))
    ∨ ((cutAndDelete env cfg entry start_s end_s diffError ratioError fs buffer).outcome
        = Outcome.cut
      ∧ (cutAndDelete env cfg entry start_s end_s diffError ratioError fs buffer).cuts ≠ []) := by
  unfold cutAndDelete
  cases hsrc : entryAt entry cfg.srcFileIndex with
  | none => left; simp
  | some src =>
    cases hout : entryAt entry cfg.outFileIndex with
    | none => left; simp
    | some out =>
      right
      simp only []
      cases hsplit : cfg.splitInHalf
      · simp only [Bool.false_eq_true, if_false]
        split <;> simp
      · simp only [if_true]
        split <;> simp

end WavCutter
namespace WavCutter

/-- The loop body on a record whose numeric fields parse: skipped by either gate, else
handed to the cutting stage with the parsed values. -/
theorem cutEntry_of_parsed (env : Env) (cfg : Config) (entry : List String) (fs : FS)
    (buffer : Buffer) (start_s end_s d ratio : Fl)
    (hs : parseField env cfg entry cfg.startSIndex = Gate.pass start_s)
    (he : parseField env cfg entry cfg.endSIndex = Gate.pass end_s)
    (hd : hasDiffError cfg entry = true →
      (entryAt entry cfg.diffErrorIndex).bind env.parseFloat = some d)
    (hr : hasRatioError cfg entry = true →
      (entryAt entry cfg.ratioErrorIndex).bind env.parseFloat = some ratio) :
    cutEntry env cfg entry fs buffer =
      if (hasDiffError cfg entry = true ∧ Fl.gt cfg.maxError (Fl.fin 0 0) = true
            ∧ Fl.gt d cfg.maxError = true)
          ∨ (hasRatioError cfg entry = true ∧ Fl.gt cfg.maxRatioError (Fl.fin 0 0) = true
            ∧ Fl.gt (Fl.abs (Fl.sub f64 (Fl.fin 1 0) ratio)) cfg.maxRatioError = true) then
        ⟨Outcome.skipped, [], false, fs, buffer⟩
      else
        cutAndDelete env cfg entry start_s end_s
          (if hasDiffError cfg entry = true then d else Fl.fin 0 0)
          (if hasRatioError cfg entry = true
            then Fl.abs (Fl.sub f64 (Fl.fin 1 0) ratio) else Fl.fin 0 0) fs buffer := by
  unfold cutEntry
  rw [hs, he]
  simp only []
  rw [diffGate_eq env cfg entry d hd, ratioGate_eq env cfg entry ratio hr]
  by_cases hPd : hasDiffError cfg entry = true ∧ Fl.gt cfg.maxError (Fl.fin 0 0) = true
      ∧ Fl.gt d cfg.maxError = true
  · simp only [hPd, and_self, if_true, true_or]
  · by_cases hPr : hasRatioError cfg entry = true ∧ Fl.gt cfg.maxRatioError (Fl.fin 0 0) = true
        ∧ Fl.gt (Fl.abs (Fl.sub f64 (Fl.fin 1 0) ratio)) cfg.maxRatioError = true
    · simp only [hPd, hPr, and_self, if_true, if_false, or_true]
    · simp only [hPd, hPr, if_false, or_self]

/-- C10: for a record whose numeric fields all parse, the worker skips the job, issuing no
cut and leaving the file system as it was, exactly when the record carries a diff-error
field, `maxError > 0` and `diffError > maxError`, or it carries a ratio field,
`maxRatioError > 0` and `|1 - ratio| > maxRatioError`; a job that is not skipped and
whose file-name fields exist issues a cut. With `maxError = 0.5` a record with diffError
0.6 is skipped, and one with diffError 0.4 is skipped only by the ratio gate. -/
theorem cutEntry_skipped_iff (env : Env) (cfg : Config) (entry : List String) (fs : FS)
    (buffer : Buffer) (start_s end_s d ratio : Fl)
    (hs : parseField env cfg entry cfg.startSIndex = Gate.pass start_s)
    (he : parseField env cfg entry cfg.endSIndex = Gate.pass end_s)
    (hd : hasDiffError cfg entry = true →
      (entryAt entry cfg.diffErrorIndex).bind env.parseFloat = some d)
    (hr : hasRatioError cfg entry = true →
      (entryAt entry cfg.ratioErrorIndex).bind env.parseFloat = some ratio) :
    ((cutEntry env cfg entry fs buffer).outcome = Outcome.skipped ↔
        ((hasDiffError cfg entry = true ∧ Fl.gt cfg.maxError (Fl.fin 0 0) = true
            ∧ Fl.gt d cfg.maxError = true)
          ∨ (hasRatioError cfg entry = true ∧ Fl.gt cfg.maxRatioError (Fl.fin 0 0) = true
            ∧ Fl.gt (Fl.abs (Fl.sub f64 (Fl.fin 1 0) ratio)) cfg.maxRatioError = true)))
    ∧ ((cutEntry env cfg entry fs buffer).outcome = Outcome.skipped →
        (cutEntry env cfg entry fs buffer).cuts = []
          ∧ (cutEntry env cfg entry fs buffer).fs = fs
          ∧ (cutEntry env cfg entry fs buffer).removed = false)
    ∧ ((cutEntry env cfg entry fs buffer).outcome ≠ Outcome.skipped →
        entryAt entry cfg.srcFileIndex ≠ none → entryAt entry cfg.outFileIndex ≠ none →
        (cutEntry env cfg entry fs buffer).outcome = Outcome.cut
          ∧ (cutEntry env cfg entry fs buffer).cuts ≠ [])
    ∧ (cfg.maxError = Fl.fin 1 (-1) → hasDiffError cfg entry = true →
        d = roundRat f32 false 6 10 →
        (cutEntry env cfg entry fs buffer).outcome = Outcome.skipped)
    ∧ (cfg.maxError = Fl.fin 1 (-1) → d = roundRat f32 false 4 10 →
        ((cutEntry env cfg entry fs buffer).outcome = Outcome.skipped ↔
          (hasRatioError cfg entry = true ∧ Fl.gt cfg.maxRatioError (Fl.fin 0 0) = true
            ∧ Fl.gt (Fl.abs (Fl.sub f64 (Fl.fin 1 0) ratio)) cfg.maxRatioError = true))) := by
  have key := cutEntry_of_parsed env cfg entry fs buffer start_s end_s d ratio hs he hd hr
  have hiff : (cutEntry env cfg entry fs buffer).outcome = Outcome.skipped ↔
      ((hasDiffError cfg entry = true ∧ Fl.gt cfg.maxError (Fl.fin 0 0) = true
          ∧ Fl.gt d cfg.maxError = true)
        ∨ (hasRatioError cfg entry = true ∧ Fl.gt cfg.maxRatioError (Fl.fin 0 0) = true
          ∧ Fl.gt (Fl.abs (Fl.sub f64 (Fl.fin 1 0) ratio)) cfg.maxRatioError = true)) := by
    rw [key]
    constructor
    · intro h
      by_contra hn
      rw [if_neg hn] at h
      rcases cutAndDelete_outcome env cfg entry start_s end_s
        (if hasDiffError cfg entry = true then d else Fl.fin 0 0)
        (if hasRatioError cfg entry = true
          then Fl.abs (Fl.sub f64 (Fl.fin 1 0) ratio) else Fl.fin 0 0) fs buffer with h1 | h1
      · rw [h1.1] at h; cases h
      · rw [h1.1] at h; cases h
    · intro h
      rw [if_pos h]
  refine ⟨hiff, ?_, ?_, ?_, ?_⟩
  · intro h
    have hc := hiff.mp h
    rw [key, if_pos hc]
    exact ⟨rfl, rfl, rfl⟩
  · intro h hsrc hout
    have hn : ¬ _ := fun hc => h (hiff.mpr hc)
    rw [key, if_neg hn]
    rcases cutAndDelete_outcome env cfg entry start_s end_s
      (if hasDiffError cfg entry = true then d else Fl.fin 0 0)
      (if hasRatioError cfg entry = true
        then Fl.abs (Fl.sub f64 (Fl.fin 1 0) ratio) else Fl.fin 0 0) fs buffer with h1 | h1
    · rcases h1.2 with h2 | h2
      · exact absurd h2 hsrc
      · exact absurd h2 hout
    · exact h1
  · intro hmax hhas hval
    apply hiff.mpr
    left
    refine ⟨hhas, ?_, ?_⟩
    · rw [hmax]; decide
    · rw [hmax, hval]; decide
  · intro hmax hval
    rw [hiff]
    constructor
    · intro h
      rcases h with h | h
      · exfalso
        have h3 := h.2.2
        rw [hmax, hval] at h3
        revert h3
        decide
      · exact h
    · intro h
      exact Or.inr h

end WavCutter
namespace WavCutter

/-- C10, witness: `max-error` 0.5 and a record whose diff-error field reads 0.6. -/
theorem cutEntry_skipped_iff_witness :
    (cutEntry envTiny cfgGate ["a.wav", "0", "4", "x.wav", "0.6"] fsTiny zeroBuffer).outcome
      = Outcome.skipped :=
  (cutEntry_skipped_iff envTiny cfgGate ["a.wav", "0", "4", "x.wav", "0.6"] fsTiny zeroBuffer
    (Fl.fin 0 0) (Fl.ofNat f32 4) (roundRat f32 false 6 10) (Fl.fin 0 0)
    (by decide) (by decide) (by decide) (by decide)).2.2.2.1 rfl (by decide) rfl

/-! ## The worker: offsets and deletion -/

/-- C6, failing input: split mode off, both offsets one second, and the record
`a.wav, 1, 2, x.wav`. The requested window with each offset applied once is `[2, 3]`,
which is what split mode divides (into `[2, 2.5]` and `[2.5, 3]`); the single cut the
worker issues is `[3, 4]`: lines 168-169 add each offset a second time. -/
theorem cutEntry_offsets_added_twice :
    Fl.eq (Fl.cast f32 (Fl.add f64 (Fl.ofNat f32 1) cfgOffsets.offsetStart)) (Fl.ofNat f32 2)
        = true
      ∧ Fl.eq (Fl.cast f32 (Fl.add f64 (Fl.ofNat f32 2) cfgOffsets.offsetEnd)) (Fl.ofNat f32 3)
        = true
      ∧ (cutEntry envTiny cfgOffsets ["a.wav", "1", "2", "x.wav"] fsTiny zeroBuffer).cuts.map
          (fun c => (c.source, c.dest, Fl.eq c.start (Fl.ofNat f32 3),
            Fl.eq c.end_ (Fl.ofNat f32 4), c.err))
        = [("in/a.wav", "out/x.wav", true, true, none)]
      ∧ (cutEntry envTiny { cfgOffsets with splitInHalf := true } ["a.wav", "1", "2", "x.wav"]
          fsTiny zeroBuffer).cuts.map
          (fun c => (c.dest, Fl.eq c.start (Fl.ofNat f32 2), Fl.eq c.end_ (Fl.fin 5 (-1)),
            Fl.eq c.start (Fl.fin 5 (-1)), Fl.eq c.end_ (Fl.ofNat f32 3)))
        = [("out/a_x.wav", true, true, false, false), ("out/b_x.wav", false, false, true, true)] := by
  decide

/-- C7, failing input: split mode, both deletion thresholds 1, the record
`a.wav, 0, 4, x.wav, 0, 1` (diff error 0, ratio error 0), and a directory in the way at
`out/a_x.wav`. The cut of the first half fails, the cut of the second half succeeds, and
the worker removes the source: line 162 overwrites the error of the first cut. -/
theorem cutEntry_deletes_after_failed_half :
    fsBlocked "in/a.wav" = some (Node.file tinyWav)
      ∧ (cutEntry envTiny cfgSplitDelete ["a.wav", "0", "4", "x.wav", "0", "1"] fsBlocked
          zeroBuffer).cuts.map (fun c => (c.dest, c.err))
        = [("out/a_x.wav", some WriteError.io), ("out/b_x.wav", none)]
      ∧ (cutEntry envTiny cfgSplitDelete ["a.wav", "0", "4", "x.wav", "0", "1"] fsBlocked
          zeroBuffer).removed = true
      ∧ (cutEntry envTiny cfgSplitDelete ["a.wav", "0", "4", "x.wav", "0", "1"] fsBlocked
          zeroBuffer).fs "in/a.wav" = none := by
  decide

end WavCutter
namespace WavCutter

/-! ## Rounding error of the `float32` operations -/

theorem pow2_pos (k : Int) : 0 < pow2 k := by
  unfold pow2; positivity

theorem pow2_cast_of_nonneg (k : Int) (hk : 0 ≤ k) : ((pow2 k : Nat) : ℚ) = (2 : ℚ) ^ k := by
  unfold pow2
  rw [Nat.cast_pow, Nat.cast_ofNat, ← zpow_natCast, Int.toNat_of_nonneg hk]

theorem pow2_of_nonpos (k : Int) (hk : k ≤ 0) : pow2 k = 1 := by
  unfold pow2
  rw [Int.toNat_eq_zero.mpr hk, pow_zero]

theorem pow2_ratio (k : Int) : ((pow2 k : Nat) : ℚ) / ((pow2 (-k) : Nat) : ℚ) = (2 : ℚ) ^ k := by
  rcases le_total 0 k with hk | hk
  · rw [pow2_cast_of_nonneg k hk, pow2_of_nonpos (-k) (by omega)]
    simp
  · rw [pow2_of_nonpos k hk, pow2_cast_of_nonneg (-k) (by omega)]
    rw [zpow_neg]
    simp

theorem ilog2Aux_spec : ∀ (fuel n : Nat), 1 ≤ n → n ≤ fuel →
    2 ^ ilog2Aux fuel n ≤ n ∧ n < 2 ^ (ilog2Aux fuel n + 1) := by
  intro fuel
  induction fuel with
  | zero => intro n h1 h2; omega
  | succ f ih =>
    intro n h1 h2
    unfold ilog2Aux
    by_cases h : 2 ≤ n
    · simp only [h, if_true]
      have hh := ih (n / 2) (by omega) (by omega)
      constructor
      · rw [pow_succ]; omega
      · rw [pow_succ]; omega
    · simp only [h, if_false]
      constructor
      · simp; omega
      · simp; omega

theorem ilog2_spec (n : Nat) (h : 1 ≤ n) : 2 ^ ilog2 n ≤ n ∧ n < 2 ^ (ilog2 n + 1) :=
  ilog2Aux_spec n n h (le_refl _)

theorem floorLog2_le (a b : Nat) (ha : 1 ≤ a) (hb : 1 ≤ b) :
    (2 : ℚ) ^ floorLog2 a b ≤ (a : ℚ) / b := by
  have hbq : (0 : ℚ) < b := by exact_mod_cast hb
  obtain ⟨ha1, -⟩ := ilog2_spec a ha
  obtain ⟨-, hb2⟩ := ilog2_spec b hb
  unfold floorLog2
  simp only []
  split
  · rename_i htest
    have hq : ((b * pow2 ((ilog2 a : Int) - ilog2 b) : Nat) : ℚ)
        ≤ ((a * pow2 (-((ilog2 a : Int) - ilog2 b)) : Nat) : ℚ) := by exact_mod_cast htest
    rw [Nat.cast_mul, Nat.cast_mul] at hq
    have hp : (0 : ℚ) < ((pow2 (-((ilog2 a : Int) - ilog2 b)) : Nat) : ℚ) := by
      exact_mod_cast pow2_pos _
    rw [← pow2_ratio, div_le_div_iff hp hbq]
    linarith
  · have e1 : (2 : ℚ) ^ ((ilog2 a : Int) - ilog2 b - 1)
        = (2 : ℚ) ^ (ilog2 a) / (2 : ℚ) ^ (ilog2 b + 1) := by
      rw [← zpow_natCast, ← zpow_natCast, ← zpow_sub₀ (by norm_num)]
      congr 1
      push_cast
      ring
    rw [e1]
    have h1 : ((2 : ℚ) ^ ilog2 a) ≤ a := by exact_mod_cast ha1
    have h2 : (b : ℚ) ≤ (2 : ℚ) ^ (ilog2 b + 1) := by exact_mod_cast le_of_lt hb2
    have hpos : (0 : ℚ) < (2 : ℚ) ^ (ilog2 b + 1) := by positivity
    rw [div_le_div_iff hpos hbq]
    have h3 : (0 : ℚ) ≤ (2 : ℚ) ^ ilog2 a := by positivity
    nlinarith

theorem rne_spec (a b : Nat) (hb : 0 < b) :
    |((rne a b : Nat) : ℚ) - (a : ℚ) / b| ≤ 1 / 2 := by
  have hbq : (0 : ℚ) < b := by exact_mod_cast hb
  have hdm : (a : ℚ) = (b : ℚ) * ((a / b : Nat) : ℚ) + ((a % b : Nat) : ℚ) := by
    exact_mod_cast (Nat.div_add_mod a b).symm
  have hr : ((a % b : Nat) : ℚ) < b := by exact_mod_cast Nat.mod_lt a hb
  have hr0 : (0 : ℚ) ≤ ((a % b : Nat) : ℚ) := by positivity
  have key : (a : ℚ) / b = ((a / b : Nat) : ℚ) + ((a % b : Nat) : ℚ) / b := by
    field_simp
    linarith
  rw [abs_le]
  unfold rne
  simp only []
  split
  · rename_i h1
    have h1q : 2 * ((a % b : Nat) : ℚ) < b := by exact_mod_cast h1
    rw [key]
    have : ((a % b : Nat) : ℚ) / b < 1 / 2 := by
      rw [div_lt_iff hbq]; linarith
    have : 0 ≤ ((a % b : Nat) : ℚ) / b := by positivity
    constructor <;> linarith
  · split
    · rename_i h1 h2
      have h2q : (b : ℚ) < 2 * ((a % b : Nat) : ℚ) := by exact_mod_cast h2
      rw [key]
      have h3 : 1 / 2 < ((a % b : Nat) : ℚ) / b := by
        rw [lt_div_iff hbq]; linarith
      have h4 : ((a % b : Nat) : ℚ) / b < 1 := by
        rw [div_lt_iff hbq]; linarith
      push_cast
      constructor <;> linarith
    · rename_i h1 h2
      have heq : 2 * (a % b) = b := by omega
      have heqq : 2 * ((a % b : Nat) : ℚ) = b := by exact_mod_cast heq
      have h3 : ((a % b : Nat) : ℚ) / b = 1 / 2 := by
        rw [div_eq_iff (ne_of_gt hbq)]; linarith
      rw [key, h3]
      split
      · constructor <;> linarith
      · push_cast
        constructor <;> linarith

end WavCutter
namespace WavCutter

theorem two_zpow_mono {x y : Int} (h : x ≤ y) : (2 : ℚ) ^ x ≤ (2 : ℚ) ^ y :=
  zpow_le_zpow_right₀ (by norm_num) h

theorem two_zpow_lt_imp {x y : Int} (h : (2 : ℚ) ^ x < (2 : ℚ) ^ y) : x < y := by
  by_contra hn
  have := two_zpow_mono (le_of_not_lt hn)
  linarith

theorem two_zpow_pos (x : Int) : (0 : ℚ) < (2 : ℚ) ^ x := by positivity

theorem ilog2_zero : ilog2 0 = 0 := rfl

/-- Rounding a positive rational below `2 ^ 100` to `float32`: the result is finite, with
the significand given by `rne`, and lies within `2 ^ (e - 24)` of the rational, where `e`
is the larger of the exponent found by `floorLog2` and `-126`. -/
theorem roundRat_f32_spec (a b : Nat) (ha : 1 ≤ a) (hb : 1 ≤ b)
    (hlt : (a : ℚ) / b < (2 : ℚ) ^ (100 : Int)) :
    roundRat f32 false a b
        = Fl.fin ((rne (a * pow2 (-(max (floorLog2 a b) (-126) - 23)))
            (b * pow2 (max (floorLog2 a b) (-126) - 23)) : Nat) : Int)
          (max (floorLog2 a b) (-126) - 23)
      ∧ |((rne (a * pow2 (-(max (floorLog2 a b) (-126) - 23)))
            (b * pow2 (max (floorLog2 a b) (-126) - 23)) : Nat) : ℚ)
            * (2 : ℚ) ^ (max (floorLog2 a b) (-126) - 23) - (a : ℚ) / b|
          ≤ (2 : ℚ) ^ (max (floorLog2 a b) (-126) - 24) := by
  have hbq : (0 : ℚ) < b := by exact_mod_cast hb
  have hfl := floorLog2_le a b ha hb
  have hfl100 : floorLog2 a b < 100 := two_zpow_lt_imp (lt_of_le_of_lt hfl hlt)
  generalize he : max (floorLog2 a b) (-126) = e at *
  have he100 : e < 100 := by rw [← he]; exact max_lt hfl100 (by norm_num)
  generalize hn : rne (a * pow2 (-(e - 23))) (b * pow2 (e - 23)) = n
  -- the error bound
  have hB : 0 < b * pow2 (e - 23) := Nat.mul_pos hb (pow2_pos _)
  have hr := rne_spec (a * pow2 (-(e - 23))) (b * pow2 (e - 23)) hB
  rw [hn] at hr
  have hratio : (((a * pow2 (-(e - 23)) : Nat) : ℚ)) / ((b * pow2 (e - 23) : Nat) : ℚ)
      = (a : ℚ) / b * (2 : ℚ) ^ (-(e - 23)) := by
    rw [Nat.cast_mul, Nat.cast_mul, ← pow2_ratio (-(e - 23)), neg_neg]
    have hp1 : ((pow2 (e - 23) : Nat) : ℚ) ≠ 0 := by
      exact_mod_cast (ne_of_gt (pow2_pos _))
    field_simp
  rw [hratio] at hr
  have hq : (0 : ℚ) < (2 : ℚ) ^ (e - 23) := two_zpow_pos _
  have herr : |(n : ℚ) * (2 : ℚ) ^ (e - 23) - (a : ℚ) / b| ≤ (2 : ℚ) ^ (e - 24) := by
    have e1 : (n : ℚ) * (2 : ℚ) ^ (e - 23) - (a : ℚ) / b
        = ((n : ℚ) - (a : ℚ) / b * (2 : ℚ) ^ (-(e - 23))) * (2 : ℚ) ^ (e - 23) := by
      rw [sub_mul, mul_assoc, ← zpow_add₀ (by norm_num : (2 : ℚ) ≠ 0)]
      simp
    have e2 : (2 : ℚ) ^ (e - 24) = 1 / 2 * (2 : ℚ) ^ (e - 23) := by
      rw [show e - 24 = (e - 23) + (-1) by ring, zpow_add₀ (by norm_num : (2 : ℚ) ≠ 0)]
      norm_num
      ring
    rw [e1, e2, abs_mul, abs_of_pos hq]
    exact mul_le_mul_of_nonneg_right hr (le_of_lt hq)
  refine ⟨?_, herr⟩
  -- the result is finite
  unfold roundRat
  have ha0 : a ≠ 0 := by omega
  simp only [ha0, if_false, roundPos, f32]
  have hemin : max (floorLog2 a b) ((1 : Int) - 127) = e := by rw [← he]; norm_num
  have hprec : (((24 : Nat) : Int) - 1) = 23 := by norm_num
  simp only [hemin, hprec, hn]
  have hno : ¬ ((127 : Int) + 1 ≤ (ilog2 n : Int) + (e - 23)) := by
    intro hov
    rcases Nat.eq_zero_or_pos n with h0 | hpos
    · rw [h0, ilog2_zero] at hov
      norm_num at hov
      omega
    · obtain ⟨hl, -⟩ := ilog2_spec n hpos
      have hlq : ((2 : ℚ) ^ (ilog2 n : Int)) ≤ n := by
        rw [zpow_natCast]; exact_mod_cast hl
      have h1 : (2 : ℚ) ^ ((ilog2 n : Int) + (e - 23)) ≤ (n : ℚ) * (2 : ℚ) ^ (e - 23) := by
        rw [zpow_add₀ (by norm_num : (2 : ℚ) ≠ 0)]
        exact mul_le_mul_of_nonneg_right hlq (le_of_lt hq)
      have h2 : (n : ℚ) * (2 : ℚ) ^ (e - 23) ≤ (a : ℚ) / b + (2 : ℚ) ^ (e - 24) := by
        have := (abs_le.mp herr).2
        linarith
      have h3 : (2 : ℚ) ^ (e - 24) ≤ (2 : ℚ) ^ (100 : Int) := two_zpow_mono (by omega)
      have h4 : (2 : ℚ) ^ ((ilog2 n : Int) + (e - 23)) < (2 : ℚ) ^ (101 : Int) := by
        have : (2 : ℚ) ^ (101 : Int) = 2 * (2 : ℚ) ^ (100 : Int) := by norm_num
        rw [this]
        linarith
      have := two_zpow_lt_imp h4
      omega
  simp only [hno, if_false, Bool.false_eq_true]

end WavCutter
namespace WavCutter

theorem rne_one (a : Nat) : rne a 1 = a := by
  unfold rne
  simp [Nat.mod_one]

/-- Rounding to `float32` with an absolute bound: a rational below `2 ^ (k + 1)` is moved
by at most `2 ^ (k - 24)`. -/
theorem roundRat_abs (a b : Nat) (hb : 1 ≤ b) (k : Int) (hk1 : -126 ≤ k) (hk2 : k ≤ 99)
    (hv : (a : ℚ) / b < (2 : ℚ) ^ (k + 1)) :
    ∃ (n : Nat) (q : Int), roundRat f32 false a b = Fl.fin (n : Int) q
      ∧ |(n : ℚ) * (2 : ℚ) ^ q - (a : ℚ) / b| ≤ (2 : ℚ) ^ (k - 24) := by
  rcases Nat.eq_zero_or_pos a with h0 | hpos
  · refine ⟨0, 0, ?_, ?_⟩
    · simp [roundRat, h0]
    · simp [h0]
      exact le_of_lt (two_zpow_pos _)
  · have hlt : (a : ℚ) / b < (2 : ℚ) ^ (100 : Int) :=
      lt_of_lt_of_le hv (two_zpow_mono (by omega))
    obtain ⟨h1, h2⟩ := roundRat_f32_spec a b hpos hb hlt
    refine ⟨_, _, h1, le_trans h2 (two_zpow_mono ?_)⟩
    have hfl := floorLog2_le a b hpos hb
    have := two_zpow_lt_imp (lt_of_le_of_lt hfl hv)
    have : max (floorLog2 a b) (-126) ≤ k := max_le (by omega) hk1
    omega

/-- Rounding to `float32` with a relative bound: the error is at most `2 ^ -24` of the
rational, plus `2 ^ -150` for the subnormal range. -/
theorem roundRat_rel (a b : Nat) (hb : 1 ≤ b) (hv : (a : ℚ) / b < (2 : ℚ) ^ (100 : Int)) :
    ∃ (n : Nat) (q : Int), roundRat f32 false a b = Fl.fin (n : Int) q
      ∧ |(n : ℚ) * (2 : ℚ) ^ q - (a : ℚ) / b|
          ≤ (2 : ℚ) ^ (-24 : Int) * ((a : ℚ) / b) + (2 : ℚ) ^ (-150 : Int) := by
  rcases Nat.eq_zero_or_pos a with h0 | hpos
  · refine ⟨0, 0, ?_, ?_⟩
    · simp [roundRat, h0]
    · simp [h0]
      exact le_of_lt (two_zpow_pos _)
  · obtain ⟨h1, h2⟩ := roundRat_f32_spec a b hpos hb hv
    refine ⟨_, _, h1, le_trans h2 ?_⟩
    have hfl := floorLog2_le a b hpos hb
    have hab : (0 : ℚ) ≤ (a : ℚ) / b := by positivity
    rcases le_total (floorLog2 a b) (-126) with hc | hc
    · rw [max_eq_right hc]
      have : (2 : ℚ) ^ ((-126 : Int) - 24) = (2 : ℚ) ^ (-150 : Int) := by norm_num
      rw [this]
      have : 0 ≤ (2 : ℚ) ^ (-24 : Int) * ((a : ℚ) / b) :=
        mul_nonneg (le_of_lt (two_zpow_pos _)) hab
      linarith
    · rw [max_eq_left hc]
      have e1 : (2 : ℚ) ^ (floorLog2 a b - 24)
          = (2 : ℚ) ^ (-24 : Int) * (2 : ℚ) ^ (floorLog2 a b) := by
        rw [← zpow_add₀ (by norm_num : (2 : ℚ) ≠ 0)]
        congr 1
        ring
      rw [e1]
      have : (2 : ℚ) ^ (-24 : Int) * (2 : ℚ) ^ (floorLog2 a b)
          ≤ (2 : ℚ) ^ (-24 : Int) * ((a : ℚ) / b) :=
        mul_le_mul_of_nonneg_left hfl (le_of_lt (two_zpow_pos _))
      have := two_zpow_pos (-150)
      linarith

theorem roundDyadic_ratio (M : Int) (E : Int) (hM : 0 ≤ M) :
    (((M.natAbs * pow2 E : Nat) : ℚ)) / ((pow2 (-E) : Nat) : ℚ) = (M : ℚ) * (2 : ℚ) ^ E := by
  rw [Nat.cast_mul, mul_div_assoc, pow2_ratio]
  congr 1
  rw [Nat.cast_natAbs, abs_of_nonneg hM]

theorem roundDyadic_eq (M : Int) (E : Int) (hM : 0 ≤ M) :
    roundDyadic f32 M E = roundRat f32 false (M.natAbs * pow2 E) (pow2 (-E)) := by
  unfold roundDyadic
  have : ¬ M < 0 := by omega
  simp [this]

/-- Rounding of a non-negative dyadic number, absolute bound. -/
theorem roundDyadic_abs (M : Int) (E : Int) (hM : 0 ≤ M) (k : Int) (hk1 : -126 ≤ k)
    (hk2 : k ≤ 99) (hv : (M : ℚ) * (2 : ℚ) ^ E < (2 : ℚ) ^ (k + 1)) :
    ∃ (n : Nat) (q : Int), roundDyadic f32 M E = Fl.fin (n : Int) q
      ∧ |(n : ℚ) * (2 : ℚ) ^ q - (M : ℚ) * (2 : ℚ) ^ E| ≤ (2 : ℚ) ^ (k - 24) := by
  rw [roundDyadic_eq M E hM, ← roundDyadic_ratio M E hM]
  rw [← roundDyadic_ratio M E hM] at hv
  exact roundRat_abs _ _ (pow2_pos _) k hk1 hk2 hv

/-- Rounding of a non-negative dyadic number, relative bound. -/
theorem roundDyadic_rel (M : Int) (E : Int) (hM : 0 ≤ M)
    (hv : (M : ℚ) * (2 : ℚ) ^ E < (2 : ℚ) ^ (100 : Int)) :
    ∃ (n : Nat) (q : Int), roundDyadic f32 M E = Fl.fin (n : Int) q
      ∧ |(n : ℚ) * (2 : ℚ) ^ q - (M : ℚ) * (2 : ℚ) ^ E|
          ≤ (2 : ℚ) ^ (-24 : Int) * ((M : ℚ) * (2 : ℚ) ^ E) + (2 : ℚ) ^ (-150 : Int) := by
  rw [roundDyadic_eq M E hM, ← roundDyadic_ratio M E hM]
  rw [← roundDyadic_ratio M E hM] at hv
  exact roundRat_rel _ _ (pow2_pos _) hv

/-- Conversion of an integer below `2 ^ 24` to `float32` is exact. -/
theorem ofNat_f32_exact (n : Nat) (hn : n < 16777216) :
    ∃ (m : Nat) (q : Int), Fl.ofNat f32 n = Fl.fin (m : Int) q
      ∧ (m : ℚ) * (2 : ℚ) ^ q = (n : ℚ) := by
  rcases Nat.eq_zero_or_pos n with h0 | hpos
  · refine ⟨0, 0, ?_, ?_⟩
    · subst h0; rfl
    · simp [h0]
  · have h1 : Fl.ofNat f32 n = roundRat f32 false n 1 := by
      unfold Fl.ofNat
      rw [roundDyadic_eq _ _ (by positivity)]
      simp [pow2]
    have hv : ((n : Nat) : ℚ) / ((1 : Nat) : ℚ) < (2 : ℚ) ^ (100 : Int) := by
      have : (n : ℚ) < 16777216 := by exact_mod_cast hn
      have h2 : (16777216 : ℚ) ≤ (2 : ℚ) ^ (100 : Int) := by norm_num
      simp
      linarith
    obtain ⟨h2, -⟩ := roundRat_f32_spec n 1 hpos (le_refl _) hv
    have hfl := floorLog2_le n 1 hpos (le_refl _)
    have hfl2 : floorLog2 n 1 < 24 := by
      apply two_zpow_lt_imp
      have : ((n : Nat) : ℚ) / ((1 : Nat) : ℚ) < (2 : ℚ) ^ (24 : Int) := by
        have : (n : ℚ) < 16777216 := by exact_mod_cast hn
        simp
        norm_num
        linarith
      linarith
    generalize he : max (floorLog2 n 1) (-126) = e at *
    have he23 : e - 23 ≤ 0 := by
      have : e ≤ 23 := by rw [← he]; exact max_le (by omega) (by norm_num)
      omega
    rw [pow2_of_nonpos (e - 23) he23, mul_one, rne_one] at h2
    refine ⟨_, _, h1.trans h2, ?_⟩
    rw [Nat.cast_mul, mul_assoc, pow2_cast_of_nonneg _ (by omega),
      ← zpow_add₀ (by norm_num : (2 : ℚ) ≠ 0)]
    simp

end WavCutter
namespace WavCutter

/-- Division of two non-negative finite values with a non-zero divisor, relative bound. -/
theorem div_f32_rel (a b : Nat) (e1 e2 : Int) (hb : 1 ≤ b)
    (hv : (a : ℚ) * (2 : ℚ) ^ e1 / ((b : ℚ) * (2 : ℚ) ^ e2) < (2 : ℚ) ^ (100 : Int)) :
    ∃ (n : Nat) (q : Int), Fl.div f32 (Fl.fin (a : Int) e1) (Fl.fin (b : Int) e2)
        = Fl.fin (n : Int) q
      ∧ |(n : ℚ) * (2 : ℚ) ^ q - (a : ℚ) * (2 : ℚ) ^ e1 / ((b : ℚ) * (2 : ℚ) ^ e2)|
          ≤ (2 : ℚ) ^ (-24 : Int) * ((a : ℚ) * (2 : ℚ) ^ e1 / ((b : ℚ) * (2 : ℚ) ^ e2))
            + (2 : ℚ) ^ (-150 : Int) := by
  have hbq : (0 : ℚ) < b := by exact_mod_cast hb
  have hratio : (((a * pow2 (e1 - e2) : Nat) : ℚ)) / ((b * pow2 (e2 - e1) : Nat) : ℚ)
      = (a : ℚ) * (2 : ℚ) ^ e1 / ((b : ℚ) * (2 : ℚ) ^ e2) := by
    rw [Nat.cast_mul, Nat.cast_mul, show e2 - e1 = -(e1 - e2) by ring, mul_div_mul_comm,
      pow2_ratio, mul_div_mul_comm, ← zpow_sub₀ (by norm_num : (2 : ℚ) ≠ 0)]
  have hdiv : Fl.div f32 (Fl.fin (a : Int) e1) (Fl.fin (b : Int) e2)
      = roundRat f32 false (a * pow2 (e1 - e2)) (b * pow2 (e2 - e1)) := by
    unfold Fl.div
    have hb0 : ¬ ((b : Int) = 0) := by omega
    have ha0 : ¬ ((a : Int) < 0) := by omega
    have hb1 : ¬ ((b : Int) < 0) := by omega
    simp [hb0, ha0, hb1]
  rw [hdiv, ← hratio]
  rw [← hratio] at hv
  exact roundRat_rel _ _ (Nat.mul_pos hb (pow2_pos _)) hv

/-- Product of two non-negative finite values, absolute bound. -/
theorem mul_f32_abs (a b : Nat) (e1 e2 : Int) (k : Int) (hk1 : -126 ≤ k) (hk2 : k ≤ 99)
    (hv : (a : ℚ) * (2 : ℚ) ^ e1 * ((b : ℚ) * (2 : ℚ) ^ e2) < (2 : ℚ) ^ (k + 1)) :
    ∃ (n : Nat) (q : Int), Fl.mul f32 (Fl.fin (a : Int) e1) (Fl.fin (b : Int) e2)
        = Fl.fin (n : Int) q
      ∧ |(n : ℚ) * (2 : ℚ) ^ q - (a : ℚ) * (2 : ℚ) ^ e1 * ((b : ℚ) * (2 : ℚ) ^ e2)|
          ≤ (2 : ℚ) ^ (k - 24) := by
  have hval : (((a : Int) * (b : Int) : Int) : ℚ) * (2 : ℚ) ^ (e1 + e2)
      = (a : ℚ) * (2 : ℚ) ^ e1 * ((b : ℚ) * (2 : ℚ) ^ e2) := by
    rw [zpow_add₀ (by norm_num : (2 : ℚ) ≠ 0)]
    push_cast
    ring
  have hmul : Fl.mul f32 (Fl.fin (a : Int) e1) (Fl.fin (b : Int) e2)
      = roundDyadic f32 ((a : Int) * (b : Int)) (e1 + e2) := rfl
  rw [hmul, ← hval]
  rw [← hval] at hv
  exact roundDyadic_abs _ _ (by positivity) k hk1 hk2 hv

/-- Difference of two finite values, the first not below the second, relative bound. -/
theorem sub_f32_rel (a b : Nat) (e1 e2 : Int)
    (hle : (b : ℚ) * (2 : ℚ) ^ e2 ≤ (a : ℚ) * (2 : ℚ) ^ e1)
    (hv : (a : ℚ) * (2 : ℚ) ^ e1 < (2 : ℚ) ^ (100 : Int)) :
    ∃ (n : Nat) (q : Int), Fl.sub f32 (Fl.fin (a : Int) e1) (Fl.fin (b : Int) e2)
        = Fl.fin (n : Int) q
      ∧ |(n : ℚ) * (2 : ℚ) ^ q - ((a : ℚ) * (2 : ℚ) ^ e1 - (b : ℚ) * (2 : ℚ) ^ e2)|
          ≤ (2 : ℚ) ^ (-24 : Int) * ((a : ℚ) * (2 : ℚ) ^ e1 - (b : ℚ) * (2 : ℚ) ^ e2)
            + (2 : ℚ) ^ (-150 : Int) := by
  have hsub : Fl.sub f32 (Fl.fin (a : Int) e1) (Fl.fin (b : Int) e2)
      = roundDyadic f32 (dyadicAdd (a : Int) e1 (-(b : Int)) e2).1
          (dyadicAdd (a : Int) e1 (-(b : Int)) e2).2 := rfl
  have hval : (((dyadicAdd (a : Int) e1 (-(b : Int)) e2).1 : Int) : ℚ)
        * (2 : ℚ) ^ (dyadicAdd (a : Int) e1 (-(b : Int)) e2).2
      = (a : ℚ) * (2 : ℚ) ^ e1 - (b : ℚ) * (2 : ℚ) ^ e2 := by
    unfold dyadicAdd
    simp only []
    push_cast
    rw [pow2_cast_of_nonneg (e1 - min e1 e2) (by omega),
      pow2_cast_of_nonneg (e2 - min e1 e2) (by omega)]
    rw [add_mul, mul_assoc, mul_assoc, ← zpow_add₀ (by norm_num : (2 : ℚ) ≠ 0),
      ← zpow_add₀ (by norm_num : (2 : ℚ) ≠ 0)]
    simp
    ring
  have hM : 0 ≤ (dyadicAdd (a : Int) e1 (-(b : Int)) e2).1 := by
    have hpos := two_zpow_pos (dyadicAdd (a : Int) e1 (-(b : Int)) e2).2
    have h0 : (0 : ℚ) ≤ (((dyadicAdd (a : Int) e1 (-(b : Int)) e2).1 : Int) : ℚ)
        * (2 : ℚ) ^ (dyadicAdd (a : Int) e1 (-(b : Int)) e2).2 := by
      rw [hval]; linarith
    have h1 : (0 : ℚ) ≤ (((dyadicAdd (a : Int) e1 (-(b : Int)) e2).1 : Int) : ℚ) := by
      by_contra hneg
      have := mul_neg_of_neg_of_pos (lt_of_not_le hneg) hpos
      linarith
    exact_mod_cast h1
  rw [hsub, ← hval]
  have hb0 : (0 : ℚ) ≤ (b : ℚ) * (2 : ℚ) ^ e2 :=
    mul_nonneg (by positivity) (le_of_lt (two_zpow_pos _))
  exact roundDyadic_rel _ _ hM (by rw [hval]; linarith)

/-- Conversion of a non-negative finite value below `2 ^ 32` to `uint32` is its floor. -/
theorem toU32_floor (oor : Fl → Nat) (n : Nat) (q : Int)
    (hv : (n : ℚ) * (2 : ℚ) ^ q < 4294967296) :
    ((Fl.toU32 oor (Fl.fin (n : Int) q) : Nat) : ℚ) ≤ (n : ℚ) * (2 : ℚ) ^ q
      ∧ (n : ℚ) * (2 : ℚ) ^ q < ((Fl.toU32 oor (Fl.fin (n : Int) q) : Nat) : ℚ) + 1 := by
  have hY : 0 < pow2 (-q) := pow2_pos _
  have hYq : (0 : ℚ) < ((pow2 (-q) : Nat) : ℚ) := by exact_mod_cast hY
  have hratio : (((n * pow2 q : Nat) : ℚ)) / ((pow2 (-q) : Nat) : ℚ) = (n : ℚ) * (2 : ℚ) ^ q := by
    rw [Nat.cast_mul, mul_div_assoc, pow2_ratio]
  have hdm : ((n * pow2 q : Nat) : ℚ)
      = ((pow2 (-q) : Nat) : ℚ) * ((n * pow2 q / pow2 (-q) : Nat) : ℚ)
        + ((n * pow2 q % pow2 (-q) : Nat) : ℚ) := by
    exact_mod_cast (Nat.div_add_mod (n * pow2 q) (pow2 (-q))).symm
  have hr : ((n * pow2 q % pow2 (-q) : Nat) : ℚ) < ((pow2 (-q) : Nat) : ℚ) := by
    exact_mod_cast Nat.mod_lt _ hY
  have hr0 : (0 : ℚ) ≤ ((n * pow2 q % pow2 (-q) : Nat) : ℚ) := by positivity
  have hfl1 : ((n * pow2 q / pow2 (-q) : Nat) : ℚ) ≤ (n : ℚ) * (2 : ℚ) ^ q := by
    rw [← hratio, le_div_iff hYq]
    nlinarith
  have hfl2 : (n : ℚ) * (2 : ℚ) ^ q < ((n * pow2 q / pow2 (-q) : Nat) : ℚ) + 1 := by
    rw [← hratio, div_lt_iff hYq]
    nlinarith
  have hlt : n * pow2 q / pow2 (-q) < 4294967296 := by
    have : ((n * pow2 q / pow2 (-q) : Nat) : ℚ) < 4294967296 := lt_of_le_of_lt hfl1 hv
    exact_mod_cast this
  have hto : Fl.toU32 oor (Fl.fin (n : Int) q) = n * pow2 q / pow2 (-q) := by
    unfold Fl.toU32
    have ht : Int.tdiv ((n : Int) * ((pow2 q : Nat) : Int)) ((pow2 (-q) : Nat) : Int)
        = ((n * pow2 q / pow2 (-q) : Nat) : Int) := by
      rw [← Int.natCast_mul]
      rfl
    simp only [ht]
    have hc : (0 : Int) ≤ ((n * pow2 q / pow2 (-q) : Nat) : Int)
        ∧ ((n * pow2 q / pow2 (-q) : Nat) : Int) < 4294967296 := by
      constructor
      · positivity
      · exact_mod_cast hlt
    simp only [hc, and_self, if_true, Int.toNat_ofNat]
  rw [hto]
  exact ⟨hfl1, hfl2⟩

theorem gt_fin_false (a b : Nat) (e1 e2 : Int)
    (h : Fl.gt (Fl.fin (a : Int) e1) (Fl.fin (b : Int) e2) = false) :
    (a : ℚ) * (2 : ℚ) ^ e1 ≤ (b : ℚ) * (2 : ℚ) ^ e2 := by
  unfold Fl.gt Fl.lt at h
  simp only [decide_eq_false_iff_not, not_lt] at h
  have hq : (((a : Int) * ((pow2 (e1 - min e2 e1) : Nat) : Int) : Int) : ℚ)
      ≤ (((b : Int) * ((pow2 (e2 - min e2 e1) : Nat) : Int) : Int) : ℚ) := by
    exact_mod_cast h
  push_cast at hq
  rw [pow2_cast_of_nonneg (e1 - min e2 e1) (by omega),
    pow2_cast_of_nonneg (e2 - min e2 e1) (by omega)] at hq
  have hpos := two_zpow_pos (min e2 e1)
  have h1 : (a : ℚ) * (2 : ℚ) ^ e1 = (a : ℚ) * (2 : ℚ) ^ (e1 - min e2 e1) * (2 : ℚ) ^ (min e2 e1) := by
    rw [mul_assoc, ← zpow_add₀ (by norm_num : (2 : ℚ) ≠ 0)]; simp
  have h2 : (b : ℚ) * (2 : ℚ) ^ e2 = (b : ℚ) * (2 : ℚ) ^ (e2 - min e2 e1) * (2 : ℚ) ^ (min e2 e1) := by
    rw [mul_assoc, ← zpow_add₀ (by norm_num : (2 : ℚ) ≠ 0)]; simp
  rw [h1, h2]
  exact mul_le_mul_of_nonneg_right hq (le_of_lt hpos)

end WavCutter
namespace WavCutter

/-- The arithmetic behind `cuts_near_data_size`: `P`, `Pm`, `Py` stand for the byte rate
times the duration, the time and the rounded remaining time, `x1`, `x2` for the two rounded
products, `F`, `E` for their integer parts, `r` for the byte rate times `2 ^ -150`. -/
theorem cut_sum_arith (D P Pm Py x1 x2 F E r : ℚ)
    (hD : D ≤ 16777215) (hr : r ≤ 1 / 281474976710656)
    (hP1 : -(1 / 16777216 * D + r) ≤ P - D) (hP2 : P - D ≤ 1 / 16777216 * D + r)
    (hPm0 : 0 ≤ Pm)
    (hPy1 : -(1 / 16777216 * (P - Pm) + r) ≤ Py - (P - Pm))
    (hPy2 : Py - (P - Pm) ≤ 1 / 16777216 * (P - Pm) + r)
    (hx1a : -(1 / 2) ≤ x1 - Pm) (hx1b : x1 - Pm ≤ 1 / 2)
    (hx2a : -1 ≤ x2 - Py) (hx2b : x2 - Py ≤ 1)
    (hF1 : F ≤ x1) (hF2 : x1 < F + 1) (hE1 : E ≤ x2) (hE2 : x2 < E + 1) :
    F + E < D + 4 ∧ D < F + E + 6 := by
  constructor <;> linarith

set_option maxHeartbeats 1000000 in
/-- For data sizes and byte rates below `2 ^ 24` and a time `0 ≤ x ≤ duration`, the bytes
`write` would cut in front of `x` and the bytes it would cut after `x` add up to the data
size, up to 3 bytes more or 5 bytes fewer. -/
theorem cuts_near_data_size (oor : Fl → Nat) (h : WavHeader) (n : Nat) (q : Int)
    (hD1 : 1 ≤ h.DataSize) (hD2 : h.DataSize < 16777216)
    (hR1 : 1 ≤ h.ByteRate) (hR2 : h.ByteRate < 16777216)
    (hle : Fl.gt (Fl.fin (n : Int) q) (srcDuration h) = false) :
    bytesCutFront oor h (Fl.fin (n : Int) q) + bytesCutEnd oor h (Fl.fin (n : Int) q)
        ≤ h.DataSize + 3
      ∧ h.DataSize
        ≤ bytesCutFront oor h (Fl.fin (n : Int) q) + bytesCutEnd oor h (Fl.fin (n : Int) q) + 5 := by
  obtain ⟨mD, qD, hDf, hDv⟩ := ofNat_f32_exact h.DataSize hD2
  obtain ⟨mR, qR, hRf, hRv⟩ := ofNat_f32_exact h.ByteRate hR2
  have hu : (2 : ℚ) ^ (-24 : Int) = 1 / 16777216 := by norm_num
  have ht0 : (0 : ℚ) < (2 : ℚ) ^ (-150 : Int) := two_zpow_pos _
  have ht : (2 : ℚ) ^ (-150 : Int) ≤ 1 / 4722366482869645213696 := by
    have : (2 : ℚ) ^ (-150 : Int) ≤ (2 : ℚ) ^ (-72 : Int) := two_zpow_mono (by norm_num)
    have h2 : (2 : ℚ) ^ (-72 : Int) = 1 / 4722366482869645213696 := by norm_num
    linarith
  have hDq1 : (1 : ℚ) ≤ (h.DataSize : ℚ) := by exact_mod_cast hD1
  have hDq2 : (h.DataSize : ℚ) ≤ 16777215 := by
    have : h.DataSize ≤ 16777215 := by omega
    exact_mod_cast this
  have hRq1 : (1 : ℚ) ≤ (h.ByteRate : ℚ) := by exact_mod_cast hR1
  have hRq2 : (h.ByteRate : ℚ) ≤ 16777215 := by
    have : h.ByteRate ≤ 16777215 := by omega
    exact_mod_cast this
  have hRpos : (0 : ℚ) < (h.ByteRate : ℚ) := by linarith
  have hmR1 : 1 ≤ mR := by
    rcases Nat.eq_zero_or_pos mR with h0 | hp
    · rw [h0] at hRv
      simp at hRv
      linarith
    · exact hp
  -- the duration
  have hquot : (mD : ℚ) * (2 : ℚ) ^ qD / ((mR : ℚ) * (2 : ℚ) ^ qR)
      = (h.DataSize : ℚ) / (h.ByteRate : ℚ) := by rw [hDv, hRv]
  have hquot_le : (h.DataSize : ℚ) / (h.ByteRate : ℚ) ≤ (h.DataSize : ℚ) := by
    rw [div_le_iff hRpos]
    nlinarith
  obtain ⟨nd, qd, hdurf, hdure⟩ := div_f32_rel mD mR qD qR hmR1 (by
    rw [hquot]
    have : (16777215 : ℚ) < (2 : ℚ) ^ (100 : Int) := by norm_num
    linarith)
  rw [hquot, hu] at hdure
  have hdur : srcDuration h = Fl.fin (nd : Int) qd := by
    unfold srcDuration
    rw [hDf, hRf, hdurf]
  rw [hdur] at hle
  have hmd := gt_fin_false n nd q qd hle
  have hm0 : (0 : ℚ) ≤ (n : ℚ) * (2 : ℚ) ^ q :=
    mul_nonneg (by positivity) (le_of_lt (two_zpow_pos _))
  generalize hdv : (nd : ℚ) * (2 : ℚ) ^ qd = dur at *
  generalize hmv : (n : ℚ) * (2 : ℚ) ^ q = m at *
  generalize htv : (2 : ℚ) ^ (-150 : Int) = t at *
  -- R * dur is within one of D
  have hP : |(h.ByteRate : ℚ) * dur - (h.DataSize : ℚ)|
      ≤ 1 / 16777216 * (h.DataSize : ℚ) + (h.ByteRate : ℚ) * t := by
    have e1 : (h.ByteRate : ℚ) * dur - (h.DataSize : ℚ)
        = (h.ByteRate : ℚ) * (dur - (h.DataSize : ℚ) / (h.ByteRate : ℚ)) := by
      field_simp
      ring
    rw [e1, abs_mul, abs_of_pos hRpos]
    have := mul_le_mul_of_nonneg_left hdure (le_of_lt hRpos)
    have e2 : (h.ByteRate : ℚ) * (1 / 16777216 * ((h.DataSize : ℚ) / (h.ByteRate : ℚ)) + t)
        = 1 / 16777216 * (h.DataSize : ℚ) + (h.ByteRate : ℚ) * t := by
      field_simp
      ring
    linarith
  have hRt : (h.ByteRate : ℚ) * t ≤ 1 / 281474976710656 := by
    have : (h.ByteRate : ℚ) * t ≤ 16777215 * (1 / 4722366482869645213696) :=
      mul_le_mul hRq2 ht (le_of_lt ht0) (by norm_num)
    have h2 : (16777215 : ℚ) * (1 / 4722366482869645213696) ≤ 1 / 281474976710656 := by
      norm_num
    linarith
  have hRt0 : (0 : ℚ) ≤ (h.ByteRate : ℚ) * t := mul_nonneg (le_of_lt hRpos) (le_of_lt ht0)
  have hPm0 : (0 : ℚ) ≤ (h.ByteRate : ℚ) * m := mul_nonneg (le_of_lt hRpos) hm0
  have hPmP : (h.ByteRate : ℚ) * m ≤ (h.ByteRate : ℚ) * dur :=
    mul_le_mul_of_nonneg_left hmd (le_of_lt hRpos)
  obtain ⟨hP1, hP2⟩ := abs_le.mp hP
  have hdur0 : (0 : ℚ) ≤ dur := le_trans hm0 hmd
  have hdurP : dur ≤ (h.ByteRate : ℚ) * dur := by nlinarith
  -- the front cut
  have hfront : bytesCutFront oor h (Fl.fin (n : Int) q)
      = Fl.toU32 oor (Fl.mul f32 (Fl.fin (mR : Int) qR) (Fl.fin (n : Int) q)) := by
    unfold bytesCutFront
    rw [hRf]
  obtain ⟨n1, q1, hx1f, hx1e⟩ := mul_f32_abs mR n qR q 23 (by norm_num) (by norm_num) (by
    rw [hRv, hmv]
    norm_num
    linarith)
  rw [hRv, hmv] at hx1e
  norm_num at hx1e
  obtain ⟨hx1a, hx1b⟩ := abs_le.mp hx1e
  obtain ⟨hF1, hF2⟩ := toU32_floor oor n1 q1 (by linarith)
  have hFeq : bytesCutFront oor h (Fl.fin (n : Int) q) = Fl.toU32 oor (Fl.fin (n1 : Int) q1) := by
    rw [hfront, hx1f]
  rw [← hFeq] at hF1 hF2
  -- the end cut
  obtain ⟨ny, qy, hyf, hye⟩ := sub_f32_rel nd n qd q (by rw [hdv, hmv]; exact hmd) (by
    rw [hdv]
    have : (16777216 : ℚ) < (2 : ℚ) ^ (100 : Int) := by norm_num
    linarith)
  rw [hdv, hmv, hu, htv] at hye
  have hend : bytesCutEnd oor h (Fl.fin (n : Int) q)
      = Fl.toU32 oor (Fl.mul f32 (Fl.fin (mR : Int) qR) (Fl.fin (ny : Int) qy)) := by
    unfold bytesCutEnd
    rw [hRf, hdur, hyf]
  generalize hyv : (ny : ℚ) * (2 : ℚ) ^ qy = y at *
  have hPy : |(h.ByteRate : ℚ) * y - ((h.ByteRate : ℚ) * dur - (h.ByteRate : ℚ) * m)|
      ≤ 1 / 16777216 * ((h.ByteRate : ℚ) * dur - (h.ByteRate : ℚ) * m)
        + (h.ByteRate : ℚ) * t := by
    have e1 : (h.ByteRate : ℚ) * y - ((h.ByteRate : ℚ) * dur - (h.ByteRate : ℚ) * m)
        = (h.ByteRate : ℚ) * (y - (dur - m)) := by ring
    rw [e1, abs_mul, abs_of_pos hRpos]
    have := mul_le_mul_of_nonneg_left hye (le_of_lt hRpos)
    linarith
  obtain ⟨hPy1, hPy2⟩ := abs_le.mp hPy
  obtain ⟨n2, q2, hx2f, hx2e⟩ := mul_f32_abs mR ny qR qy 24 (by norm_num) (by norm_num) (by
    rw [hRv, hyv]
    norm_num
    linarith)
  rw [hRv, hyv] at hx2e
  norm_num at hx2e
  obtain ⟨hx2a, hx2b⟩ := abs_le.mp hx2e
  obtain ⟨hE1, hE2⟩ := toU32_floor oor n2 q2 (by linarith)
  have hEeq : bytesCutEnd oor h (Fl.fin (n : Int) q) = Fl.toU32 oor (Fl.fin (n2 : Int) q2) := by
    rw [hend, hx2f]
  rw [← hEeq] at hE1 hE2
  -- together
  generalize hfv : ((bytesCutFront oor h (Fl.fin (n : Int) q) : Nat) : ℚ) = F at *
  generalize hev : ((bytesCutEnd oor h (Fl.fin (n : Int) q) : Nat) : ℚ) = E at *
  have hx1a' : -(1 / 2) ≤ n1 * (2 : ℚ) ^ q1 - (h.ByteRate : ℚ) * m := by linarith only [hx1a]
  have hx1b' : n1 * (2 : ℚ) ^ q1 - (h.ByteRate : ℚ) * m ≤ 1 / 2 := by linarith only [hx1b]
  have hx2a' : -1 ≤ n2 * (2 : ℚ) ^ q2 - (h.ByteRate : ℚ) * y := by linarith only [hx2a]
  have hx2b' : n2 * (2 : ℚ) ^ q2 - (h.ByteRate : ℚ) * y ≤ 1 := by linarith only [hx2b]
  obtain ⟨hup, hlo⟩ := cut_sum_arith (h.DataSize : ℚ) ((h.ByteRate : ℚ) * dur)
    ((h.ByteRate : ℚ) * m) ((h.ByteRate : ℚ) * y) (n1 * (2 : ℚ) ^ q1) (n2 * (2 : ℚ) ^ q2) F E
    ((h.ByteRate : ℚ) * t) hDq2 hRt hP1 hP2 hPm0 hPy1 hPy2 hx1a' hx1b' hx2a' hx2b'
    hF1 hF2 hE1 hE2
  rw [← hfv, ← hev] at hup hlo
  constructor
  · have : bytesCutFront oor h (Fl.fin (n : Int) q) + bytesCutEnd oor h (Fl.fin (n : Int) q)
        < h.DataSize + 4 := by exact_mod_cast hup
    omega
  · have : h.DataSize
        < bytesCutFront oor h (Fl.fin (n : Int) q) + bytesCutEnd oor h (Fl.fin (n : Int) q) + 6 := by
      exact_mod_cast hlo
    omega

end WavCutter
namespace WavCutter

/-! ## Signs of the split-mode midpoint -/

theorem roundRat_isNonneg (f : FlFormat) (a b : Nat) :
    (roundRat f false a b).isNonneg = true := by
  unfold roundRat
  split
  · simp [Fl.isNonneg]
  · simp only []
    split
    · simp [Fl.isNonneg]
    · simp [Fl.isNonneg]

theorem roundDyadic_isNonneg (f : FlFormat) (M E : Int) (hM : 0 ≤ M) :
    (roundDyadic f M E).isNonneg = true := by
  unfold roundDyadic
  have : ¬ M < 0 := by omega
  simp only [this, decide_False]
  exact roundRat_isNonneg f _ _

theorem cast_isNonneg (f : FlFormat) (x : Fl) (hx : x.isNonneg = true) :
    (Fl.cast f x).isNonneg = true := by
  cases x with
  | fin m e =>
    simp only [Fl.isNonneg, decide_eq_true_eq] at hx
    exact roundDyadic_isNonneg f m e hx
  | inf neg => exact hx
  | nan => exact hx

theorem div_two_isNonneg (f : FlFormat) (x : Fl) (hx : x.isNonneg = true) :
    (Fl.div f x (Fl.fin 2 0)).isNonneg = true := by
  cases x with
  | fin m e =>
    simp only [Fl.isNonneg, decide_eq_true_eq] at hx
    have h1 : ¬ m < 0 := by omega
    unfold Fl.div
    simp only [show ¬ ((2 : Int) = 0) by norm_num, if_false, h1, decide_False,
      show ¬ ((2 : Int) < 0) by norm_num, bne_self_eq_false]
    exact roundRat_isNonneg f _ _
  | inf neg =>
    simp only [Fl.isNonneg, Bool.not_eq_true'] at hx
    subst hx
    simp [Fl.div, Fl.isNonneg]
  | nan => simp [Fl.isNonneg] at hx

theorem add_isNonneg (f : FlFormat) (m e : Int) (hm : 0 ≤ m) (y : Fl)
    (hy : y.isNonneg = true) : (Fl.add f (Fl.fin m e) y).isNonneg = true := by
  cases y with
  | fin m2 e2 =>
    simp only [Fl.isNonneg, decide_eq_true_eq] at hy
    show (roundDyadic f (dyadicAdd m e m2 e2).1 (dyadicAdd m e m2 e2).2).isNonneg = true
    apply roundDyadic_isNonneg
    unfold dyadicAdd
    simp only []
    positivity
  | inf neg => exact hy
  | nan => simp [Fl.isNonneg] at hy

theorem sub_isNonneg (f : FlFormat) (m1 e1 m2 e2 : Int)
    (hle : Fl.le (Fl.fin m2 e2) (Fl.fin m1 e1) = true) :
    (Fl.sub f (Fl.fin m1 e1) (Fl.fin m2 e2)).isNonneg = true := by
  show (roundDyadic f (dyadicAdd m1 e1 (-m2) e2).1 (dyadicAdd m1 e1 (-m2) e2).2).isNonneg = true
  apply roundDyadic_isNonneg
  unfold Fl.le at hle
  simp only [decide_eq_true_eq] at hle
  unfold dyadicAdd
  simp only []
  rw [min_comm e1 e2]
  linarith

/-- The midpoint of a window `0 ≤ start ≤ end` of finite times is not negative. -/
theorem splitMid_isNonneg (s e : Fl) (h0 : Fl.le (Fl.fin 0 0) s = true)
    (hse : Fl.le s e = true) (hfin : ∃ m q, e = Fl.fin m q) :
    (Fl.cast f32 (splitMid s e)).isNonneg = true := by
  obtain ⟨me, qe, rfl⟩ := hfin
  cases s with
  | fin ms qs =>
    have hms : 0 ≤ ms := by
      unfold Fl.le at h0
      simp only [decide_eq_true_eq, zero_mul] at h0
      have hp : (0 : Int) < ((pow2 (qs - min 0 qs) : Nat) : Int) := by
        exact_mod_cast pow2_pos _
      by_contra hneg
      have := mul_neg_of_neg_of_pos (lt_of_not_le hneg) hp
      omega
    apply cast_isNonneg
    unfold splitMid
    apply add_isNonneg _ _ _ hms
    apply div_two_isNonneg
    exact sub_isNonneg f64 me qe ms qs hse
  | inf neg =>
    exfalso
    cases neg <;> simp [Fl.le] at h0 hse
  | nan => simp [Fl.le] at h0

theorem isNonneg_fin (x : Fl) (hx : x.isNonneg = true) (hfin : ∃ m q, x = Fl.fin m q) :
    ∃ (n : Nat) (q : Int), x = Fl.fin (n : Int) q := by
  obtain ⟨m, q, rfl⟩ := hfin
  simp only [Fl.isNonneg, decide_eq_true_eq] at hx
  exact ⟨m.toNat, q, by rw [Int.toNat_of_nonneg hx]⟩

/-- The duration of a header with non-zero sizes below `2 ^ 24` is a finite number. -/
theorem srcDuration_fin (h : WavHeader) (hD2 : h.DataSize < 16777216)
    (hR1 : 1 ≤ h.ByteRate) (hR2 : h.ByteRate < 16777216) :
    ∃ (n : Nat) (q : Int), srcDuration h = Fl.fin (n : Int) q := by
  obtain ⟨mD, qD, hDf, hDv⟩ := ofNat_f32_exact h.DataSize hD2
  obtain ⟨mR, qR, hRf, hRv⟩ := ofNat_f32_exact h.ByteRate hR2
  have hRq1 : (1 : ℚ) ≤ (h.ByteRate : ℚ) := by exact_mod_cast hR1
  have hDq2 : (h.DataSize : ℚ) ≤ 16777216 := by
    have : h.DataSize ≤ 16777216 := by omega
    exact_mod_cast this
  have hDq0 : (0 : ℚ) ≤ (h.DataSize : ℚ) := by positivity
  have hmR1 : 1 ≤ mR := by
    rcases Nat.eq_zero_or_pos mR with h0 | hp
    · rw [h0] at hRv
      simp at hRv
      linarith
    · exact hp
  obtain ⟨nd, qd, hdurf, -⟩ := div_f32_rel mD mR qD qR hmR1 (by
    rw [hDv, hRv]
    have h1 : (h.DataSize : ℚ) / (h.ByteRate : ℚ) ≤ (h.DataSize : ℚ) := by
      rw [div_le_iff (by linarith)]
      nlinarith
    have : (16777216 : ℚ) < (2 : ℚ) ^ (100 : Int) := by norm_num
    linarith)
  exact ⟨nd, qd, by unfold srcDuration; rw [hDf, hRf, hdurf]⟩

end WavCutter

namespace WavCutter

/-! ## Split mode: the sizes of the halves -/

set_option maxHeartbeats 1000000 in
/-- C9, as amended: for every header with data size and byte rate below `2 ^ 24`, a byte
rate of at least 1, and every window with `0 ≤ start ≤ end` (the times after the offsets),
split mode issues the cuts `[start, mid]` and `[mid, end]` with one and the same
`mid = start + (end - start) / 2`, computed in `float64` and converted to `float32`, as
end of the first and start of the second; and when the two halves and the single cut
`[start, end]` all pass both range checks, the output data sizes of the halves add up to
at most 5 bytes more and at most 3 bytes fewer than the output data size of the single
cut. -/
theorem split_halves_sizes (env : Env) (cfg : Config) (entry : List String)
    (start_s end_s diffError ratioError : Fl) (fs : FS) (buffer : Buffer) (src out : String)
    (h : WavHeader) (ta tb tc : Trim)
    (hsplit : cfg.splitInHalf = true)
    (hsrc : entryAt entry cfg.srcFileIndex = some src)
    (hout : entryAt entry cfg.outFileIndex = some out)
    (hD2 : h.DataSize < 16777216) (hR1 : 1 ≤ h.ByteRate) (hR2 : h.ByteRate < 16777216)
    (h0 : Fl.le (Fl.fin 0 0) (Fl.add f64 start_s cfg.offsetStart) = true)
    (hse : Fl.le (Fl.add f64 start_s cfg.offsetStart) (Fl.add f64 end_s cfg.offsetEnd) = true)
    (ha : trim env.oor h (Fl.cast f32 (Fl.add f64 start_s cfg.offsetStart))
      (Fl.cast f32 (splitMid (Fl.add f64 start_s cfg.offsetStart)
        (Fl.add f64 end_s cfg.offsetEnd))) = Except.ok ta)
    (hb : trim env.oor h
      (Fl.cast f32 (splitMid (Fl.add f64 start_s cfg.offsetStart)
        (Fl.add f64 end_s cfg.offsetEnd)))
      (Fl.cast f32 (Fl.add f64 end_s cfg.offsetEnd)) = Except.ok tb)
    (hc : trim env.oor h (Fl.cast f32 (Fl.add f64 start_s cfg.offsetStart))
      (Fl.cast f32 (Fl.add f64 end_s cfg.offsetEnd)) = Except.ok tc) :
    (cutAndDelete env cfg entry start_s end_s diffError ratioError fs buffer).cuts.map
        (fun c => (c.start, c.end_))
      = [(Fl.cast f32 (Fl.add f64 start_s cfg.offsetStart),
          Fl.cast f32 (splitMid (Fl.add f64 start_s cfg.offsetStart)
            (Fl.add f64 end_s cfg.offsetEnd))),
         (Fl.cast f32 (splitMid (Fl.add f64 start_s cfg.offsetStart)
            (Fl.add f64 end_s cfg.offsetEnd)),
          Fl.cast f32 (Fl.add f64 end_s cfg.offsetEnd))]
    ∧ ta.out.DataSize + tb.out.DataSize ≤ tc.out.DataSize + 5
    ∧ tc.out.DataSize ≤ ta.out.DataSize + tb.out.DataSize + 3 := by
  have hid := split_identity env cfg entry start_s end_s diffError ratioError fs buffer src out
    h ta tb tc hsplit hsrc hout (by omega) ha hb hc
  refine ⟨hid.1, ?_⟩
  have hmod := hid.2
  clear hid
  generalize Fl.add f64 start_s cfg.offsetStart = s at h0 hse ha hb hc hmod
  generalize Fl.add f64 end_s cfg.offsetEnd = e at hse ha hb hc hmod
  obtain ⟨hga, ha1, ha2⟩ := (trim_ok_iff _ _ _ _ _).mp ha
  obtain ⟨-, hb1, hb2⟩ := (trim_ok_iff _ _ _ _ _).mp hb
  obtain ⟨hgc, hc1, hc2⟩ := (trim_ok_iff _ _ _ _ _).mp hc
  obtain ⟨nd, qd, hdur⟩ := srcDuration_fin h hD2 hR1 hR2
  have hefin : ∃ m q, e = Fl.fin m q := by
    cases e with
    | fin m q => exact ⟨m, q, rfl⟩
    | inf neg =>
      exfalso
      cases neg
      · rw [hdur] at hgc
        simp [Fl.cast, Fl.gt, Fl.lt] at hgc
      · cases s <;> simp [Fl.le] at h0 hse
        subst hse
        simp at h0
    | nan =>
      exfalso
      cases s <;> simp [Fl.le] at hse
  have hmid := splitMid_isNonneg s e h0 hse hefin
  have hmfin : ∃ m q, Fl.cast f32 (splitMid s e) = Fl.fin m q := by
    cases hm : Fl.cast f32 (splitMid s e) with
    | fin m q => exact ⟨m, q, rfl⟩
    | inf neg =>
      exfalso
      rw [hm] at hmid hga
      rw [hdur] at hga
      cases neg <;> simp [Fl.isNonneg, Fl.gt, Fl.lt] at hmid hga
    | nan =>
      exfalso
      rw [hm] at hmid
      simp [Fl.isNonneg] at hmid
  obtain ⟨n, q, hmq⟩ := isNonneg_fin _ hmid hmfin
  rw [hmq] at hga hmod
  have hnear := cuts_near_data_size env.oor h n q (by omega) hD2 hR1 hR2 hga
  have ea : ta.out.DataSize = (h.DataSize + 4294967296
      - (bytesCutFront env.oor h (Fl.cast f32 s)
        + bytesCutEnd env.oor h (Fl.cast f32 (splitMid s e))) % 4294967296) % 4294967296 := by
    rw [ha2]
  have eb : tb.out.DataSize = (h.DataSize + 4294967296
      - (bytesCutFront env.oor h (Fl.cast f32 (splitMid s e))
        + bytesCutEnd env.oor h (Fl.cast f32 e)) % 4294967296) % 4294967296 := by rw [hb2]
  have ec : tc.out.DataSize = (h.DataSize + 4294967296
      - (bytesCutFront env.oor h (Fl.cast f32 s)
        + bytesCutEnd env.oor h (Fl.cast f32 e)) % 4294967296) % 4294967296 := by rw [hc2]
  rw [wrap_sub_eq _ _ (by omega) ha1] at ea
  rw [wrap_sub_eq _ _ (by omega) hb1] at eb
  rw [wrap_sub_eq _ _ (by omega) hc1] at ec
  generalize (bytesCutFront env.oor h (Fl.cast f32 s)
        + bytesCutEnd env.oor h (Fl.cast f32 (splitMid s e))) % 4294967296 = ca at ea ha1
  generalize (bytesCutFront env.oor h (Fl.cast f32 (splitMid s e))
        + bytesCutEnd env.oor h (Fl.cast f32 e)) % 4294967296 = cb at eb hb1
  generalize (bytesCutFront env.oor h (Fl.cast f32 s)
        + bytesCutEnd env.oor h (Fl.cast f32 e)) % 4294967296 = cc at ec hc1
  generalize bytesCutFront env.oor h (Fl.fin (n : Int) q) = F at hmod hnear
  generalize bytesCutEnd env.oor h (Fl.fin (n : Int) q) = E at hmod hnear
  generalize ta.out.DataSize = A at ea hmod ⊢
  generalize tb.out.DataSize = B at eb hmod ⊢
  generalize tc.out.DataSize = C at ec hmod ⊢
  generalize h.DataSize = D at hD2 ea eb ec ha1 hb1 hc1 hmod hnear
  have hl : A + B + F + E < 4294967296 := by omega
  have hr : C + D < 4294967296 := by omega
  rw [Nat.mod_eq_of_lt hl, Nat.mod_eq_of_lt hr] at hmod
  omega

/-- C9, witness: 16,000,000 data bytes of 16-bit stereo at 44100 Hz and the window from
second 2 to second 5.2. The halves hold 282,239 data bytes each, the single cut 564,479:
one byte more than the two halves together. -/
theorem split_halves_sizes_witness :
    (Trim.mk 352800 15364961 15717761
        { cdHeader 16000000 with DataSize := 282239, FileSize := 282275 }).out.DataSize
      + (Trim.mk 635040 15082721 15717761
        { cdHeader 16000000 with DataSize := 282239, FileSize := 282275 }).out.DataSize
      ≤ (Trim.mk 352800 15082721 15435521
        { cdHeader 16000000 with DataSize := 564479, FileSize := 564515 }).out.DataSize + 5
    ∧ (Trim.mk 352800 15082721 15435521
        { cdHeader 16000000 with DataSize := 564479, FileSize := 564515 }).out.DataSize
      ≤ (Trim.mk 352800 15364961 15717761
        { cdHeader 16000000 with DataSize := 282239, FileSize := 282275 }).out.DataSize
      + (Trim.mk 635040 15082721 15717761
        { cdHeader 16000000 with DataSize := 282239, FileSize := 282275 }).out.DataSize + 3 :=
  (split_halves_sizes envTiny { cfgDefault with splitInHalf := true }
    ["c.wav", "2", "5.2", "x.wav"] splitS splitE (Fl.fin 0 0) (Fl.fin 0 0)
    (fsCd 16000000) zeroBuffer "c.wav" "x.wav" (cdHeader 16000000)
    ⟨352800, 15364961, 15717761,
      { cdHeader 16000000 with DataSize := 282239, FileSize := 282275 }⟩
    ⟨635040, 15082721, 15717761,
      { cdHeader 16000000 with DataSize := 282239, FileSize := 282275 }⟩
    ⟨352800, 15082721, 15435521,
      { cdHeader 16000000 with DataSize := 564479, FileSize := 564515 }⟩
    (by decide) (by decide) (by decide) (by decide) (by decide) (by decide) (by decide)
    (by decide) (by decide) (by decide) (by decide)).2

end WavCutter
